import Mathlib

/-!
Verification of `scripts/daily_html_publisher.py`.

The Python script is shallowly embedded below.  Documents (HTML/XML text on
disk) are modelled as `List Char`; short strings (slugs, titles, dates) as
`String`.  The filesystem and the clock are explicit inputs: the set of
`blog/*.html` files is a list of `(stem, content)` pairs in mtime-descending
order, and `today` / `utcnow` are parameters.  Fallible operations (XML
parsing) are modelled by an explicit sum type.
-/

/-! ## Basic string machinery shared by the embedded functions -/

/-- Python's substring test `pat in l` (`str.__contains__`). -/
def containsSub (pat : List Char) : List Char → Bool
  | [] => pat.isEmpty
  | c :: rest => pat.isPrefixOf (c :: rest) || containsSub pat rest

/-- Split a string at the first occurrence of `pat`: returns the part before
the match and the part after it (the regex-engine convention of scanning
left to right for the leftmost match of a literal). -/
def splitOnFirst (pat : List Char) : List Char → Option (List Char × List Char)
  | [] => if pat.isEmpty then some ([], []) else none
  | c :: rest =>
    if pat.isPrefixOf (c :: rest) then some ([], (c :: rest).drop pat.length)
    else (splitOnFirst pat rest).map (fun p => (c :: p.1, p.2))

/-- Case-insensitive prefix test, modelling `re.IGNORECASE` matching of an
ASCII literal pattern. -/
def ciPref : List Char → List Char → Bool
  | [], _ => true
  | _ :: _, [] => false
  | a :: as, b :: bs => (a.toLower == b.toLower) && ciPref as bs

/-- Case-insensitive substring test. -/
def containsSubCI (pat : List Char) : List Char → Bool
  | [] => pat.isEmpty
  | c :: rest => ciPref pat (c :: rest) || containsSubCI pat rest

/-- `re.sub(pat, pat+ins, doc, count=1, flags=IGNORECASE)` for a literal
pattern whose replacement keeps the matched text (group 1) and appends
`ins` right after it.  When no match exists the document is returned
unchanged. -/
def subAfterFirstCI (pat ins : List Char) : List Char → List Char
  | [] => []
  | c :: rest =>
    if ciPref pat (c :: rest) then
      (c :: rest).take pat.length ++ ins ++ (c :: rest).drop pat.length
    else c :: subAfterFirstCI pat ins rest

/-- Case-insensitive split at the first occurrence of `pat`; returns the
text before the match and the text after the matched region. -/
def splitOnFirstCI (pat : List Char) : List Char → Option (List Char × List Char)
  | [] => if pat.isEmpty then some ([], []) else none
  | c :: rest =>
    if ciPref pat (c :: rest) then some ([], (c :: rest).drop pat.length)
    else (splitOnFirstCI pat rest).map (fun p => (c :: p.1, p.2))

/-- One character of `html.escape(s, quote=True)`. -/
def escapeChar (c : Char) : List Char :=
  if c = '&' then "&amp;".data
  else if c = '<' then "&lt;".data
  else if c = '>' then "&gt;".data
  else if c = '"' then "&quot;".data
  else if c = Char.ofNat 39 then "&#x27;".data
  else [c]

/-- `html.escape(s, quote=True)`: the five sequential `str.replace` calls of
the stdlib implementation coincide with this character-wise expansion,
because no replacement text contains a character that is itself replaced
at a later step. -/
def htmlEscape (l : List Char) : List Char :=
  l.foldr (fun c acc => escapeChar c ++ acc) []

/-- `String`-level `html.escape`. -/
def escapeStr (s : String) : String := ⟨htmlEscape s.data⟩

/-- Python's `str.join` on a list of fragments. -/
def pyJoin (sep : List Char) : List (List Char) → List Char
  | [] => []
  | [x] => x
  | x :: y :: rest => x ++ sep ++ pyJoin sep (y :: rest)

/-- Python's `str.strip()`: drop leading and trailing whitespace. -/
def pyStrip (l : List Char) : List Char :=
  ((l.dropWhile Char.isWhitespace).reverse.dropWhile Char.isWhitespace).reverse

/-- Decimal digits of a natural number, most significant first (empty for 0);
the recursion mirrors how `str(i)` renders the loop counter in
`f"{s}-{i}"`. -/
def natDigits : ℕ → List Char
  | 0 => []
  | n + 1 =>
    natDigits ((n + 1) / 10) ++ [Char.ofNat (48 + (n + 1) % 10)]
decreasing_by exact Nat.div_lt_self (Nat.succ_pos n) (by omega)

/-- Python's `str(i)` for a natural number. -/
def natRepr (n : ℕ) : String :=
  if n = 0 then "0" else ⟨natDigits n⟩

/-! ## Lemmas about the string machinery -/

theorem isPrefixOf_eq_true_iff (l₁ l₂ : List Char) :
    l₁.isPrefixOf l₂ = true ↔ l₁ <+: l₂ :=
  List.isPrefixOf_iff_prefix

theorem containsSub_eq_true_iff (pat l : List Char) :
    containsSub pat l = true ↔ ∃ n, pat <+: l.drop n := by
  induction l with
  | nil =>
    simp only [containsSub, List.isEmpty_iff, List.drop_nil]
    constructor
    · rintro rfl; exact ⟨0, List.nil_prefix⟩
    · rintro ⟨n, h⟩; exact List.prefix_nil.mp h
  | cons c rest ih =>
    simp only [containsSub, Bool.or_eq_true, isPrefixOf_eq_true_iff, ih]
    constructor
    · rintro (h | ⟨n, h⟩)
      · exact ⟨0, h⟩
      · exact ⟨n + 1, h⟩
    · rintro ⟨n, h⟩
      cases n with
      | zero => exact Or.inl h
      | succ n => exact Or.inr ⟨n, h⟩

theorem containsSub_of_append_middle (pat A B : List Char) :
    containsSub pat (A ++ pat ++ B) = true := by
  rw [containsSub_eq_true_iff]
  refine ⟨A.length, ?_⟩
  rw [List.append_assoc, List.drop_left]
  exact List.prefix_append pat B

theorem splitOnFirst_eq_none_iff (pat l : List Char) :
    splitOnFirst pat l = none ↔ containsSub pat l = false := by
  induction l with
  | nil =>
    simp only [splitOnFirst, containsSub]
    by_cases h : pat.isEmpty <;> simp [h]
  | cons c rest ih =>
    simp only [splitOnFirst, containsSub]
    by_cases h : pat.isPrefixOf (c :: rest)
    · simp [h]
    · simp only [h, if_false, Bool.false_or, ← ih]
      cases splitOnFirst pat rest <;> simp

theorem splitOnFirst_some_spec (pat : List Char) :
    ∀ l pre suf, splitOnFirst pat l = some (pre, suf) →
      l = pre ++ pat ++ suf ∧ ∀ q < pre.length, ¬ pat <+: l.drop q := by
  intro l
  induction l with
  | nil =>
    intro pre suf h
    simp only [splitOnFirst] at h
    by_cases hp : pat.isEmpty
    · rw [if_pos hp] at h
      simp only [Option.some.injEq, Prod.mk.injEq] at h
      obtain ⟨rfl, rfl⟩ := h
      rw [List.isEmpty_iff] at hp
      simp [hp]
    · rw [if_neg hp] at h; exact absurd h (by simp)
  | cons c rest ih =>
    intro pre suf h
    by_cases hp : pat.isPrefixOf (c :: rest)
    · rw [splitOnFirst, if_pos hp] at h
      simp only [Option.some.injEq, Prod.mk.injEq] at h
      obtain ⟨rfl, rfl⟩ := h
      refine ⟨?_, by simp⟩
      rw [isPrefixOf_eq_true_iff] at hp
      have htake := List.prefix_iff_eq_take.mp hp
      simp only [List.nil_append]
      conv_lhs => rw [← List.take_append_drop pat.length (c :: rest)]
      exact congrArg (fun x => x ++ List.drop pat.length (c :: rest)) htake.symm
    · rw [splitOnFirst, if_neg hp] at h
      obtain ⟨⟨pre', suf'⟩, he, hmap⟩ := Option.map_eq_some'.mp h
      obtain ⟨h1, h2⟩ := Prod.mk.injEq .. ▸ hmap
      simp only at h1 h2
      subst h1; subst h2
      obtain ⟨hdecomp, hmin⟩ := ih pre' suf' he
      refine ⟨by simp [hdecomp], ?_⟩
      intro q hq
      cases q with
      | zero =>
        intro hpre
        exact hp ((isPrefixOf_eq_true_iff pat (c :: rest)).mpr hpre)
      | succ q =>
        simp only [List.length_cons, Nat.succ_lt_succ_iff] at hq
        simpa using hmin q hq

theorem splitOnFirst_of_minimal (pat : List Char) :
    ∀ pre suf, (∀ q < pre.length, ¬ pat <+: (pre ++ pat ++ suf).drop q) →
      splitOnFirst pat (pre ++ pat ++ suf) = some (pre, suf) := by
  intro pre
  induction pre with
  | nil =>
    intro suf _
    simp only [List.nil_append]
    cases hps : pat ++ suf with
    | nil =>
      obtain ⟨rfl, rfl⟩ := List.append_eq_nil.mp hps
      simp [splitOnFirst]
    | cons c rest =>
      rw [splitOnFirst]
      have hpre : pat.isPrefixOf (c :: rest) = true := by
        rw [isPrefixOf_eq_true_iff, ← hps]; exact List.prefix_append pat suf
      rw [if_pos hpre]
      congr 1
      refine Prod.ext rfl ?_
      simp only
      rw [← hps, List.drop_left]
  | cons c pre' ih =>
    intro suf hmin
    have hnp : pat.isPrefixOf (c :: (pre' ++ pat ++ suf)) = false := by
      rw [Bool.eq_false_iff]
      intro hco
      have := hmin 0 (by simp)
      rw [List.drop_zero] at this
      exact this (by simpa [isPrefixOf_eq_true_iff] using hco)
    have : (c :: pre') ++ pat ++ suf = c :: (pre' ++ pat ++ suf) := by simp
    rw [this, splitOnFirst, hnp]
    simp only [Bool.false_eq_true, if_false]
    rw [ih suf ?_]
    · rfl
    · intro q hq
      have := hmin (q + 1) (by simpa using Nat.succ_lt_succ hq)
      simpa using this

theorem prefix_append_iff_of_le (pat A B : List Char) (h : pat.length ≤ A.length) :
    pat <+: A ++ B ↔ pat <+: A := by
  constructor
  · intro hp
    rw [List.prefix_iff_eq_take] at hp ⊢
    rwa [List.take_append_of_le_length h] at hp
  · intro hp
    exact hp.trans (List.prefix_append A B)

theorem prefix_drop_append_iff (pat A B : List Char) (q : ℕ)
    (h : q + pat.length ≤ A.length) :
    (pat <+: (A ++ B).drop q) ↔ pat <+: A.drop q := by
  rw [List.drop_append_of_le_length (by omega)]
  exact prefix_append_iff_of_le pat (A.drop q) B (by simp; omega)

/-! ## Decimal rendering of the loop counter -/

/-- Valuation inverse of `natDigits`, used to prove injectivity. -/
def digitsVal (l : List Char) : ℕ :=
  l.foldl (fun a c => 10 * a + (c.toNat - 48)) 0

theorem digitsVal_append_digit (l : List Char) (c : Char) :
    digitsVal (l ++ [c]) = 10 * digitsVal l + (c.toNat - 48) := by
  simp [digitsVal, List.foldl_append]

theorem toNat_digitChar (d : ℕ) (h : d < 10) : (Char.ofNat (48 + d)).toNat = 48 + d := by
  interval_cases d <;> decide

theorem digitsVal_natDigits (n : ℕ) : digitsVal (natDigits n) = n := by
  induction n using Nat.strong_induction_on with
  | _ n ih =>
    match n with
    | 0 => simp [natDigits, digitsVal]
    | n + 1 =>
      rw [natDigits, digitsVal_append_digit,
        ih ((n + 1) / 10) (Nat.div_lt_self (Nat.succ_pos n) (by omega)),
        toNat_digitChar _ (Nat.mod_lt _ (by omega))]
      omega

theorem natDigits_injective : Function.Injective natDigits := by
  intro a b h
  have := congrArg digitsVal h
  rwa [digitsVal_natDigits, digitsVal_natDigits] at this

theorem natDigits_ne_nil_of_pos (n : ℕ) (h : 0 < n) : natDigits n ≠ [] := by
  match n, h with
  | n + 1, _ => rw [natDigits]; simp

theorem natRepr_injective : Function.Injective natRepr := by
  intro a b h
  rcases Nat.eq_zero_or_pos a with ha | ha <;> rcases Nat.eq_zero_or_pos b with hb | hb
  · omega
  · subst ha
    rw [natRepr, natRepr, if_pos rfl, if_neg (by omega)] at h
    have := congrArg String.data h
    simp only at this
    have hd : natDigits b = ['0'] := by rw [← this]
    have := congrArg digitsVal hd
    rw [digitsVal_natDigits] at this
    simp [digitsVal] at this
    omega
  · subst hb
    rw [natRepr, natRepr, if_neg (by omega), if_pos rfl] at h
    have := congrArg String.data h
    simp only at this
    have hd : natDigits a = ['0'] := by rw [this]
    have := congrArg digitsVal hd
    rw [digitsVal_natDigits] at this
    simp [digitsVal] at this
    omega
  · rw [natRepr, natRepr, if_neg (by omega), if_neg (by omega)] at h
    exact natDigits_injective (congrArg String.data h)

/-! ## SlugAllocator (`ensure_unique_slug`, line 114) -/

/-- Modelled from the spec: the normalization performed by the external
`python-slugify` package (not part of this repository): "Normalizes
candidate into a lowercase, hyphen-separated, URL-safe token (strip
diacritics, collapse non-alphanumerics to single hyphens, trim
leading/trailing hyphens)."  Modelled for ASCII input: alphanumeric runs
are lowercased, every maximal run of other characters becomes a single
separating hyphen, and leading/trailing separators vanish. -/
def slugify (s : String) : String :=
  ⟨pyJoin ['-']
    (((s.data.splitOnP (fun c => !(c.isAlpha || c.isDigit))).map
        (fun w => w.map Char.toLower)).filter (fun w => !w.isEmpty))⟩

/-- The candidate filename stem tried at counter value `i`:
`f"{s}-{i}"` in the source (the `.html` suffix is common to all
candidates and is dropped from the model of the directory snapshot). -/
def slugCand (s : String) (i : ℕ) : String := s ++ "-" ++ natRepr i

/-- The `while` loop of `ensure_unique_slug`: starting from counter `i`,
advance while the candidate stem is an existing file.  The loop in the
source is unbounded; `fuel` is an upper bound on the number of iterations,
shown sufficient below (`findSuffix_spec` + `exists_free_cand`). -/
def findSuffix (s : String) (existing : Finset String) : ℕ → ℕ → ℕ
  | 0, i => i
  | fuel + 1, i => if slugCand s i ∈ existing then findSuffix s existing fuel (i + 1) else i

/-- `ensure_unique_slug(base, blog_dir)` (line 114).  The directory snapshot
is abstracted to `existing`, the set of stems `t` for which
`blog_dir/t.html` exists. -/
def ensure_unique_slug (base : String) (existing : Finset String) : String :=
  let s := slugify base
  if s ∈ existing then slugCand s (findSuffix s existing (existing.card + 1) 2)
  else s

theorem slugCand_injective (s : String) : Function.Injective (slugCand s) := by
  intro a b h
  apply natRepr_injective
  have hdata := congrArg String.data h
  rw [show slugCand s a = s ++ "-" ++ natRepr a from rfl,
    show slugCand s b = s ++ "-" ++ natRepr b from rfl] at hdata
  simp only [String.data_append, List.append_assoc] at hdata
  have := List.append_cancel_left (List.append_cancel_left hdata)
  exact congrArg String.mk this

theorem exists_free_cand (s : String) (existing : Finset String) :
    ∃ i, 2 ≤ i ∧ i ≤ 2 + existing.card ∧ slugCand s i ∉ existing := by
  by_contra hall
  push_neg at hall
  have hmaps : ∀ i ∈ Finset.Icc 2 (2 + existing.card), slugCand s i ∈ existing := by
    intro i hi
    rw [Finset.mem_Icc] at hi
    exact hall i hi.1 hi.2
  have hinj : Set.InjOn (slugCand s) (Finset.Icc 2 (2 + existing.card)) :=
    fun a _ b _ h => slugCand_injective s h
  have hcard := Finset.card_le_card_of_injOn (slugCand s) hmaps hinj
  rw [Nat.card_Icc] at hcard
  omega

theorem findSuffix_spec (s : String) (existing : Finset String) :
    ∀ fuel start, (∃ j, start ≤ j ∧ j < start + fuel ∧ slugCand s j ∉ existing) →
      slugCand s (findSuffix s existing fuel start) ∉ existing ∧
      start ≤ findSuffix s existing fuel start ∧
      ∀ k, start ≤ k → k < findSuffix s existing fuel start → slugCand s k ∈ existing := by
  intro fuel
  induction fuel with
  | zero => intro start h; obtain ⟨j, h1, h2, _⟩ := h; omega
  | succ fuel ih =>
    intro start h
    rw [findSuffix]
    by_cases hmem : slugCand s start ∈ existing
    · rw [if_pos hmem]
      have h' : ∃ j, start + 1 ≤ j ∧ j < start + 1 + fuel ∧ slugCand s j ∉ existing := by
        obtain ⟨j, h1, h2, h3⟩ := h
        refine ⟨j, ?_, by omega, h3⟩
        rcases Nat.eq_or_lt_of_le h1 with rfl | h1'
        · exact absurd hmem h3
        · omega
      obtain ⟨q1, q2, q3⟩ := ih (start + 1) h'
      refine ⟨q1, by omega, ?_⟩
      intro k hk1 hk2
      rcases Nat.eq_or_lt_of_le hk1 with rfl | hk1'
      · exact hmem
      · exact q3 k hk1' hk2
    · rw [if_neg hmem]
      exact ⟨hmem, le_refl _, fun k h1 h2 => absurd (by omega : start < start) (lt_irrefl _)⟩

theorem ensure_unique_slug_not_mem (base : String) (existing : Finset String) :
    ensure_unique_slug base existing ∉ existing := by
  rw [ensure_unique_slug]
  by_cases h : slugify base ∈ existing
  · simp only [h, if_true]
    obtain ⟨j, h1, h2, h3⟩ := exists_free_cand (slugify base) existing
    exact (findSuffix_spec (slugify base) existing (existing.card + 1) 2
      ⟨j, h1, by omega, h3⟩).1
  · simpa [h] using h

theorem natRepr_data_ne_nil (n : ℕ) : (natRepr n).data ≠ [] := by
  rw [natRepr]
  by_cases h : n = 0
  · rw [if_pos h]; decide
  · rw [if_neg h]
    match n, h with
    | n + 1, _ => exact natDigits_ne_nil_of_pos (n + 1) (Nat.succ_pos n)

theorem slugCand_ne_base (s : String) (i : ℕ) : slugCand s i ≠ s := by
  intro h
  have hlen := congrArg (fun t => t.data.length) h
  rw [show slugCand s i = s ++ "-" ++ natRepr i from rfl] at hlen
  simp only [String.data_append, List.length_append] at hlen
  have := natRepr_data_ne_nil i
  have : 0 < (natRepr i).data.length := List.length_pos.mpr this
  have hdash : ("-" : String).data.length = 1 := rfl
  omega

/-- The run of colliding allocations of the testable property: the directory
starts empty, the candidate is always `"redis-caching"`, and each returned
slug becomes an existing file before the next call. -/
def rcExisting : ℕ → Finset String
  | 0 => ∅
  | k + 1 => insert (ensure_unique_slug "redis-caching" (rcExisting k)) (rcExisting k)

/-- The slug returned by allocation number `k + 1` of that run. -/
def rcSlug (k : ℕ) : String := ensure_unique_slug "redis-caching" (rcExisting k)

theorem slugify_rc : slugify "redis-caching" = "redis-caching" := by decide

theorem slugCand_mem_insert_image_iff (S : Finset ℕ) (i : ℕ) :
    slugCand "redis-caching" i ∈
        insert "redis-caching" (S.image (slugCand "redis-caching")) ↔ i ∈ S := by
  simp only [Finset.mem_insert, Finset.mem_image]
  constructor
  · rintro (h | ⟨j, hj, hji⟩)
    · exact absurd h (slugCand_ne_base _ i)
    · rwa [slugCand_injective _ hji] at hj
  · intro h; exact Or.inr ⟨i, h, rfl⟩

theorem alloc_on_closed_set (n : ℕ) (hn : 1 ≤ n) :
    ensure_unique_slug "redis-caching"
        (insert "redis-caching" ((Finset.Icc 2 n).image (slugCand "redis-caching"))) =
      slugCand "redis-caching" (n + 1) := by
  set E := insert "redis-caching" ((Finset.Icc 2 n).image (slugCand "redis-caching")) with hE
  have hin : "redis-caching" ∈ E := by
    rw [hE]; exact Finset.mem_insert_self _ _
  rw [ensure_unique_slug]
  simp only [slugify_rc]
  rw [if_pos hin]
  obtain ⟨j, h1, h2, h3⟩ := exists_free_cand "redis-caching" E
  obtain ⟨q1, q2, q3⟩ := findSuffix_spec "redis-caching" E (E.card + 1) 2
    ⟨j, h1, by omega, h3⟩
  set r := findSuffix "redis-caching" E (E.card + 1) 2 with hr
  have hfree : r ∉ Finset.Icc 2 n := fun hmem =>
    q1 ((slugCand_mem_insert_image_iff (Finset.Icc 2 n) r).mpr hmem)
  have hocc : ∀ m, 2 ≤ m → m < r → m ∈ Finset.Icc 2 n := fun m hm1 hm2 =>
    (slugCand_mem_insert_image_iff (Finset.Icc 2 n) m).mp (q3 m hm1 hm2)
  rw [Finset.mem_Icc] at hfree
  have hreq : r = n + 1 := by
    by_contra hne
    rcases Nat.lt_or_ge r (n + 1) with hlt | hge
    · exact hfree ⟨q2, by omega⟩
    · have h2r : n + 1 < r := by omega
      have := hocc (n + 1) (by omega) h2r
      rw [Finset.mem_Icc] at this
      omega
  exact congrArg (slugCand "redis-caching") hreq

theorem rcRun_closed (k : ℕ) :
    rcExisting k = (if k = 0 then ∅ else
      insert "redis-caching" ((Finset.Icc 2 k).image (slugCand "redis-caching"))) ∧
    rcSlug k = (if k = 0 then "redis-caching" else slugCand "redis-caching" (k + 1)) := by
  induction k with
  | zero =>
    refine ⟨rfl, ?_⟩
    rw [if_pos rfl, rcSlug, ensure_unique_slug]
    simp [slugify_rc, rcExisting]
  | succ k ih =>
    obtain ⟨ihE, ihS⟩ := ih
    have hset : rcExisting (k + 1) = insert "redis-caching"
        ((Finset.Icc 2 (k + 1)).image (slugCand "redis-caching")) := by
      rw [show rcExisting (k + 1) = insert (rcSlug k) (rcExisting k) from rfl, ihS, ihE]
      by_cases hk : k = 0
      · subst hk
        rw [if_pos rfl, if_pos rfl]
        have h1 : Finset.Icc 2 1 = (∅ : Finset ℕ) := by decide
        rw [h1]
        simp
      · rw [if_neg hk, if_neg hk]
        rw [show Finset.Icc 2 (k + 1) = insert (k + 1) (Finset.Icc 2 k) by
          ext m; simp only [Finset.mem_insert, Finset.mem_Icc]; omega]
        rw [Finset.image_insert]
        ext x
        simp only [Finset.mem_insert]
        tauto
    refine ⟨by rw [if_neg (Nat.succ_ne_zero k)]; exact hset, ?_⟩
    rw [if_neg (Nat.succ_ne_zero k), rcSlug, hset]
    exact alloc_on_closed_set (k + 1) (Nat.succ_le_succ (Nat.zero_le k))

/-! ## SitemapMerger (`update_sitemap`, line 330) -/

/-- `site_url.rstrip("/")`. -/
def rstripSlash (s : String) : String :=
  ⟨((s.data.reverse.dropWhile (fun c => c = '/'))).reverse⟩

/-- The sitemap namespace URI; ElementTree renders a qualified tag as the
URI in braces followed by the local name. -/
def SM_NS : String := "http://www.sitemaps.org/schemas/sitemap/0.9"

/-- Qualified tag `f"\x7b\x7b\x7bns\x7d\x7d\x7dlocal"` as ElementTree spells it. -/
def qtag (local_name : String) : String := "\x7b" ++ SM_NS ++ "\x7d" ++ local_name

def url_tag : String := qtag "url"
def loc_tag : String := qtag "loc"
def lastmod_tag : String := qtag "lastmod"
def priority_tag : String := qtag "priority"

/-- A simple child element of a `url` entry: tag plus text (ElementTree's
`text=None` is collapsed to `""`, matching the `or ""` in the source). -/
structure XmlLeaf where
  tag : String
  text : String
deriving DecidableEq, Repr

/-- One `url` element: its list of child elements in document order. -/
structure UrlEntry where
  children : List XmlLeaf
deriving DecidableEq, Repr

/-- The `urlset` root: its `url` entries in document order.  (For a
well-formed sitemap, `root.findall(".//url")` visits exactly these, in
order.) -/
structure Urlset where
  entries : List UrlEntry
deriving DecidableEq, Repr

/-- The state of the sitemap file on disk before the call: absent, present
but unparseable (`ET.ParseError`), or parsed. -/
inductive SitemapFile
  | absent
  | corrupt
  | ok (doc : Urlset)
deriving DecidableEq

/-- `f"{site_url.rstrip('/')}/blog/{slug}.html"` (line 342). -/
def loc_value (site_url slug : String) : String :=
  rstripSlash site_url ++ "/blog/" ++ slug ++ ".html"

/-- `u.find(tag)`: first direct child with the given tag. -/
def findChild (tag : String) (cs : List XmlLeaf) : Option XmlLeaf :=
  cs.find? (fun c => c.tag == tag)

/-- `(loc_el.text or "").strip() == loc_value` applied to `u.find(loc_tag)`
(lines 363-365). -/
def entryMatchesLoc (loc : String) (e : UrlEntry) : Bool :=
  match findChild loc_tag e.children with
  | some el => ⟨pyStrip el.text.data⟩ == loc
  | none => false

/-- Lines 374-378: set the text of the first `lastmod` child, or append a
new `lastmod` child at the end when there is none (`ET.SubElement`
appends). -/
def setLastmod (lm : String) : List XmlLeaf → List XmlLeaf
  | [] => [⟨lastmod_tag, lm⟩]
  | c :: rest => if c.tag == lastmod_tag then ⟨c.tag, lm⟩ :: rest else c :: setLastmod lm rest

/-- The `for`-loop of lines 362-367 combined with the two branches of
lines 369-378: update the first entry whose `loc` matches, or report that
none does. -/
def updateFirstMatch (loc lm : String) : List UrlEntry → Option (List UrlEntry)
  | [] => none
  | e :: es =>
    if entryMatchesLoc loc e then some (⟨setLastmod lm e.children⟩ :: es)
    else (updateFirstMatch loc lm es).map (fun r => e :: r)

/-- The fresh entry appended by lines 370-373. -/
def newUrlEntry (loc lm : String) : UrlEntry :=
  ⟨[⟨loc_tag, loc⟩, ⟨lastmod_tag, lm⟩, ⟨priority_tag, "0.7"⟩]⟩

/-- The homepage entry seeded by lines 356-359 (only on the
file-does-not-exist branch). -/
def seedHomeEntry (site_url lm : String) : UrlEntry :=
  ⟨[⟨loc_tag, rstripSlash site_url ++ "/"⟩, ⟨lastmod_tag, lm⟩, ⟨priority_tag, "1.0"⟩]⟩

/-- `update_sitemap(sitemap_path, site_url, slug)` (line 330): the document
written back to disk.  `lastmod` is the `today_iso()` value, passed in
explicitly; `file` is the prior state of `sitemap_path`. -/
def update_sitemap (file : SitemapFile) (site_url slug lm : String) : Urlset :=
  let root : Urlset :=
    match file with
    | .absent => ⟨[seedHomeEntry site_url lm]⟩
    | .corrupt => ⟨[]⟩
    | .ok doc => doc
  let loc := loc_value site_url slug
  match updateFirstMatch loc lm root.entries with
  | some es => ⟨es⟩
  | none => ⟨root.entries ++ [newUrlEntry loc lm]⟩

theorem pyStrip_length_le (l : List Char) : (pyStrip l).length ≤ l.length := by
  rw [pyStrip]
  calc ((l.dropWhile Char.isWhitespace).reverse.dropWhile Char.isWhitespace).reverse.length
      = ((l.dropWhile Char.isWhitespace).reverse.dropWhile Char.isWhitespace).length := by
        rw [List.length_reverse]
    _ ≤ (l.dropWhile Char.isWhitespace).reverse.length :=
        (List.dropWhile_sublist Char.isWhitespace).length_le
    _ = (l.dropWhile Char.isWhitespace).length := by rw [List.length_reverse]
    _ ≤ l.length := (List.dropWhile_sublist Char.isWhitespace).length_le

theorem entryMatchesLoc_seedHome (site_url slug lm : String) :
    entryMatchesLoc (loc_value site_url slug) (seedHomeEntry site_url lm) = false := by
  rw [entryMatchesLoc]
  have hfind : findChild loc_tag (seedHomeEntry site_url lm).children =
      some ⟨loc_tag, rstripSlash site_url ++ "/"⟩ := by
    rw [seedHomeEntry, findChild]
    simp [List.find?]
  rw [hfind]
  simp only [beq_eq_false_iff_ne, ne_eq]
  intro h
  have hlen := congrArg (fun t => t.data.length) h
  simp only at hlen
  have h1 : (pyStrip (rstripSlash site_url ++ "/").data).length ≤
      (rstripSlash site_url ++ "/").data.length := pyStrip_length_le _
  rw [loc_value] at hlen
  simp only [String.data_append, List.length_append] at hlen h1
  simp only [List.length_cons, List.length_nil] at hlen h1
  omega

theorem updateFirstMatch_none_of_all (loc lm : String) (l : List UrlEntry)
    (h : ∀ e ∈ l, entryMatchesLoc loc e = false) :
    updateFirstMatch loc lm l = none := by
  induction l with
  | nil => rfl
  | cons e es ih =>
    rw [updateFirstMatch, h e (List.mem_cons_self e es)]
    simp only [Bool.false_eq_true, if_false]
    rw [ih (fun e' he' => h e' (List.mem_cons_of_mem e he'))]
    rfl

theorem updateFirstMatch_split (loc lm : String) (l₁ l₂ : List UrlEntry) (e : UrlEntry)
    (h₁ : ∀ e' ∈ l₁, entryMatchesLoc loc e' = false)
    (he : entryMatchesLoc loc e = true) :
    updateFirstMatch loc lm (l₁ ++ e :: l₂) =
      some (l₁ ++ ⟨setLastmod lm e.children⟩ :: l₂) := by
  induction l₁ with
  | nil => simp [updateFirstMatch, he]
  | cons a l₁' ih =>
    rw [List.cons_append, updateFirstMatch, h₁ a (List.mem_cons_self a l₁')]
    simp only [Bool.false_eq_true, if_false]
    rw [ih (fun e' he' => h₁ e' (List.mem_cons_of_mem a he'))]
    rfl

theorem setLastmod_split (lm : String) (c₁ c₂ : List XmlLeaf) (lmc : XmlLeaf)
    (h₁ : ∀ c ∈ c₁, c.tag ≠ lastmod_tag) (hc : lmc.tag = lastmod_tag) :
    setLastmod lm (c₁ ++ lmc :: c₂) = c₁ ++ ⟨lastmod_tag, lm⟩ :: c₂ := by
  induction c₁ with
  | nil =>
    simp only [List.nil_append, setLastmod]
    rw [if_pos (by simp [hc])]
    rw [hc]
  | cons a c₁' ih =>
    rw [List.cons_append, setLastmod,
      if_neg (by simpa using h₁ a (List.mem_cons_self a c₁'))]
    rw [ih (fun c hc' => h₁ c (List.mem_cons_of_mem a hc'))]
    rfl

theorem setLastmod_append_of_none (lm : String) (cs : List XmlLeaf)
    (h : ∀ c ∈ cs, c.tag ≠ lastmod_tag) :
    setLastmod lm cs = cs ++ [⟨lastmod_tag, lm⟩] := by
  induction cs with
  | nil => rfl
  | cons a cs' ih =>
    rw [setLastmod, if_neg (by simpa using h a (List.mem_cons_self a cs'))]
    rw [ih (fun c hc => h c (List.mem_cons_of_mem a hc))]
    rfl


/-! ## Replacement-template semantics of `re.sub` -/

/-- The backslash character. -/
def bslash : Char := Char.ofNat 92

/-- Errors raised while parsing a replacement template
(`Lib/re/_parser.py`, `parse_template`).  `Pattern.sub` parses a
replacement string that contains a backslash before scanning for matches,
so these abort the call even when the pattern never matches. -/
inductive ReError
  | badEscapeEnd
  | badEscape
  | invalidGroupRef
  | octalOutOfRange
  | missingLt
  | missingGt
  | missingGroupName
  | badGroupName
  | unknownGroupName
deriving DecidableEq, Repr

/-- One parsed template element: a literal character or a group
reference.  (CPython coalesces adjacent literals; that is immaterial to
the expansion.) -/
inductive ReplItem
  | chr (c : Char)
  | grp (n : ℕ)
deriving DecidableEq, Repr

def isOctChar (c : Char) : Bool := 48 ≤ c.toNat && c.toNat ≤ 55

def octVal (c : Char) : ℕ := c.toNat - 48

def digitVal (c : Char) : ℕ := c.toNat - 48

def digitsValue (name : List Char) : ℕ := name.foldl (fun a c => 10 * a + digitVal c) 0

/-- ASCII restriction of `str.isidentifier` (group names in the templates
of this program are ASCII text). -/
def isIdentAscii (name : List Char) : Bool :=
  match name with
  | [] => false
  | c :: rest => (c.isAlpha || c = '_') && rest.all (fun ch => ch.isAlphanum || ch = '_')

/-- `parse_template(source, state)` of `Lib/re/_parser.py` (CPython 3.11)
for text templates against a pattern with `groups` groups and no named
groups (both patterns of this program are such): literal characters pass
through; `\\g<...>` and numeric escapes denote group references; `\\0`-style
and three-octal-digit escapes denote characters; the seven fixed
single-character escapes and `\\\\` denote characters; a backslash before
any other ASCII letter is an error; a backslash before a non-letter stays
literal; a trailing backslash is an error.  `fuel` bounds the number of
template elements; every step consumes at least one character, so
`length + 1` fuel (as supplied by `parse_template` below) always
suffices. -/
def parseTemplateF (groups : ℕ) : ℕ → List Char → Except ReError (List ReplItem)
  | 0, _ => .ok []
  | _ + 1, [] => .ok []
  | fuel + 1, c :: rest =>
    if c = bslash then
      match rest with
      | [] => .error .badEscapeEnd
      | e :: rest2 =>
        if e = 'g' then
          match rest2 with
          | '<' :: rest3 =>
            let after := rest3.dropWhile (fun ch => ch ≠ '>')
            if after.isEmpty then
              if rest3.isEmpty then .error .missingGroupName else .error .missingGt
            else
              let name := rest3.takeWhile (fun ch => ch ≠ '>')
              if name.isEmpty then .error .missingGroupName
              else if isIdentAscii name then .error .unknownGroupName
              else if name.all (fun ch => ch.isDigit) then
                if digitsValue name > groups then .error .invalidGroupRef
                else (parseTemplateF groups fuel after.tail).map
                  (fun t => .grp (digitsValue name) :: t)
              else .error .badGroupName
          | _ => .error .missingLt
        else if e = '0' then
          match rest2 with
          | o1 :: rest3 =>
            if isOctChar o1 then
              match rest3 with
              | o2 :: rest4 =>
                if isOctChar o2 then
                  (parseTemplateF groups fuel rest4).map
                    (fun t => .chr (Char.ofNat (octVal o1 * 8 + octVal o2)) :: t)
                else
                  (parseTemplateF groups fuel (o2 :: rest4)).map
                    (fun t => .chr (Char.ofNat (octVal o1)) :: t)
              | [] => .ok [.chr (Char.ofNat (octVal o1))]
            else (parseTemplateF groups fuel (o1 :: rest3)).map
              (fun t => .chr (Char.ofNat 0) :: t)
          | [] => .ok [.chr (Char.ofNat 0)]
        else if e.isDigit then
          match rest2 with
          | d2 :: rest3 =>
            if d2.isDigit then
              match rest3 with
              | d3 :: rest4 =>
                if isOctChar e && isOctChar d2 && isOctChar d3 then
                  if octVal e * 64 + octVal d2 * 8 + octVal d3 > 255 then
                    .error .octalOutOfRange
                  else
                    (parseTemplateF groups fuel rest4).map
                      (fun t => .chr (Char.ofNat (octVal e * 64 + octVal d2 * 8 + octVal d3)) :: t)
                else
                  if digitVal e * 10 + digitVal d2 > groups then .error .invalidGroupRef
                  else (parseTemplateF groups fuel (d3 :: rest4)).map
                    (fun t => .grp (digitVal e * 10 + digitVal d2) :: t)
              | [] =>
                if digitVal e * 10 + digitVal d2 > groups then .error .invalidGroupRef
                else .ok [.grp (digitVal e * 10 + digitVal d2)]
            else
              if digitVal e > groups then .error .invalidGroupRef
              else (parseTemplateF groups fuel (d2 :: rest3)).map
                (fun t => .grp (digitVal e) :: t)
          | [] =>
            if digitVal e > groups then .error .invalidGroupRef
            else .ok [.grp (digitVal e)]
        else if e = bslash then
          (parseTemplateF groups fuel rest2).map (fun t => .chr bslash :: t)
        else if e = 'a' then
          (parseTemplateF groups fuel rest2).map (fun t => .chr (Char.ofNat 7) :: t)
        else if e = 'b' then
          (parseTemplateF groups fuel rest2).map (fun t => .chr (Char.ofNat 8) :: t)
        else if e = 'f' then
          (parseTemplateF groups fuel rest2).map (fun t => .chr (Char.ofNat 12) :: t)
        else if e = 'n' then
          (parseTemplateF groups fuel rest2).map (fun t => .chr (Char.ofNat 10) :: t)
        else if e = 'r' then
          (parseTemplateF groups fuel rest2).map (fun t => .chr (Char.ofNat 13) :: t)
        else if e = 't' then
          (parseTemplateF groups fuel rest2).map (fun t => .chr (Char.ofNat 9) :: t)
        else if e = 'v' then
          (parseTemplateF groups fuel rest2).map (fun t => .chr (Char.ofNat 11) :: t)
        else if e.isAlpha then .error .badEscape
        else (parseTemplateF groups fuel rest2).map (fun t => .chr bslash :: .chr e :: t)
    else (parseTemplateF groups fuel rest).map (fun t => .chr c :: t)

/-- The template parser at its always-sufficient fuel. -/
def parse_template (groups : ℕ) (l : List Char) : Except ReError (List ReplItem) :=
  parseTemplateF groups (l.length + 1) l

/-- Expand a parsed template at one match.  In both templates of this
program every legal group reference denotes the whole match (`\1` under
the all-enclosing group of the index pattern, `\g<0>` in general), so
the expansion substitutes the matched text for every reference. -/
def expandTemplate (items : List ReplItem) (matched : List Char) : List Char :=
  items.foldr (fun it acc =>
    (match it with | .chr ch => [ch] | .grp _ => matched) ++ acc) []

/-! ## IndexMerger (`prepend_link_to_index`, line 306) -/

/-- The insertion marker of the blog index (the literal regex pattern,
group 1). -/
def ulMarker : List Char := "<ul id=\"posts\">".data

/-- The inserted `<li>` entry of line 308; `today` is
`datetime.date.today().isoformat()`. -/
def linkHtml (slug title today : String) : List Char :=
  "\n      <li><a href=\"/blog/".data ++ slug.data ++ ".html\">".data ++
    htmlEscape title.data ++ "</a> <small>— ".data ++ today.data ++ "</small></li>".data

/-- `pattern.sub` with `count=1` for a case-insensitive literal pattern:
expand the parsed template at the first match, leave the document
unchanged when there is none. -/
def subFirstCIExpand (pat : List Char) (items : List ReplItem) : List Char → List Char
  | [] => []
  | c :: rest =>
    if ciPref pat (c :: rest) then
      expandTemplate items ((c :: rest).take pat.length) ++ (c :: rest).drop pat.length
    else c :: subFirstCIExpand pat items rest

/-- `prepend_link_to_index(index_path, slug, title)` (line 306):
`re.sub(r'(<ul id="posts">)', r'\1' + link, html, count=1, IGNORECASE)`.
The replacement always contains a backslash (the `\1` prefix), so
`re.sub` parses it as a template before scanning; a bad escape in the
interpolated link text therefore aborts the call even when the marker is
absent from the document. -/
def prepend_link_to_index (doc : List Char) (slug title today : String) :
    Except ReError (List Char) :=
  match parse_template 1 (bslash :: '1' :: linkHtml slug title today) with
  | .error e => .error e
  | .ok items => .ok (subFirstCIExpand ulMarker items doc)

theorem subAfterFirstCI_no_match (pat ins : List Char) :
    ∀ l, containsSubCI pat l = false → subAfterFirstCI pat ins l = l := by
  intro l
  induction l with
  | nil => intro _; rfl
  | cons c rest ih =>
    intro h
    rw [containsSubCI, Bool.or_eq_false_iff] at h
    rw [subAfterFirstCI, h.1]
    simp only [Bool.false_eq_true, if_false]
    rw [ih h.2]

theorem subAfterFirstCI_split (pat ins : List Char) (hpat : pat ≠ []) :
    ∀ pre post, ciPref pat post = true →
      (∀ q < pre.length, ciPref pat ((pre ++ post).drop q) = false) →
      subAfterFirstCI pat ins (pre ++ post) =
        pre ++ post.take pat.length ++ ins ++ post.drop pat.length := by
  intro pre
  induction pre with
  | nil =>
    intro post hci _
    cases post with
    | nil =>
      exfalso
      cases pat with
      | nil => exact hpat rfl
      | cons a as => exact absurd hci (by rw [ciPref]; simp)
    | cons c rest =>
      simp only [List.nil_append]
      rw [subAfterFirstCI, if_pos hci]
  | cons c pre' ih =>
    intro post hci hmin
    have h0 : ciPref pat ((c :: pre') ++ post) = false := by
      have := hmin 0 (by simp)
      simpa using this
    rw [List.cons_append, subAfterFirstCI, show (c :: (pre' ++ post)) = (c :: pre') ++ post from rfl, h0]
    simp only [Bool.false_eq_true, if_false]
    rw [ih post hci ?_]
    · simp
    · intro q hq
      have := hmin (q + 1) (by simpa using Nat.succ_lt_succ hq)
      simpa using this

/-! ## HomepageLatestRebuilder (`rebuild_home_latest`, line 384) -/

def startMarker : List Char := "<!-- LATEST_POSTS_START -->".data
def endMarker : List Char := "<!-- LATEST_POSTS_END -->".data
def titleOpen : List Char := "<title>".data
def titleClose : List Char := "</title>".data
def siteSuffix : List Char := " • Jainam Mehta".data

/-- Python's `str.replace(pat, repl)` (all occurrences, case-sensitive,
scanning left to right), indexed by fuel so that the recursion is
structural.  The `pat ≠ []` guard only affects the empty pattern, which
never occurs here (`siteSuffix` is nonempty). -/
def replaceAllF (pat repl : List Char) : ℕ → List Char → List Char
  | _, [] => []
  | 0, l => l
  | fuel + 1, c :: rest =>
    if pat.isPrefixOf (c :: rest) ∧ pat ≠ [] then
      repl ++ replaceAllF pat repl fuel ((c :: rest).drop pat.length)
    else c :: replaceAllF pat repl fuel rest

/-- `str.replace(pat, repl)`: fuel `l.length` is never exhausted, since
every step consumes one unit and strictly shortens the remaining text
(a matched nonempty pattern drops at least one character). -/
def replaceAll (pat repl : List Char) (l : List Char) : List Char :=
  replaceAllF pat repl l.length l

/-- Lines 397-398: `re.search(r"<title>(.*?)</title>", ..., IGNORECASE|DOTALL)`,
then strip the fixed site suffix and surrounding whitespace; the filename
stem is the fallback when the pattern does not match. -/
def extractTitle (stem : String) (content : List Char) : String :=
  match splitOnFirstCI titleOpen content with
  | none => stem
  | some p =>
    match splitOnFirstCI titleClose p.2 with
    | none => stem
    | some q => ⟨pyStrip (replaceAll siteSuffix [] q.1)⟩

/-- The collection loop of lines 391-403: walk the directory listing in
mtime-descending order, skip the blog index (`p.name == "index.html"`
iff the stem is `"index"`; `"styles.css"` can never equal a `*.html`
name), record `(stem, title)`, and stop once `max_items` entries are
collected.  `k` is the number of entries collected so far. -/
def collectPosts (max_items : ℕ) : List (String × String) → ℕ → List (String × String)
  | [], _ => []
  | (stem, content) :: rest, k =>
    if stem = "index" then collectPosts max_items rest k
    else
      (stem, extractTitle stem content.data) ::
        (if k + 1 ≥ max_items then [] else collectPosts max_items rest (k + 1))

/-- One generated `<li>` line (line 406); note the stem is interpolated
raw while the title is escaped. -/
def liEntry (slug title : String) : List Char :=
  "<li><a href=\"/blog/".data ++ slug.data ++ ".html\">".data ++
    htmlEscape title.data ++ "</a></li>".data

/-- `li_html` (lines 405-407). -/
def liHtml (posts : List (String × String)) : List Char :=
  "\n          ".data ++
    pyJoin "\n          ".data (posts.map (fun p => liEntry p.1 p.2)) ++
    "\n        ".data

/-- The literal fast path of `pattern.sub(replacement, home, count=1)`
(lines 412-415), taken when the replacement contains no backslash:
replace the first `START ... END` region (lazy match) when both markers
occur, else leave the document alone. -/
def sub_region_pure (li home : List Char) : List Char :=
  if containsSub startMarker home && containsSub endMarker home then
    match splitOnFirst startMarker home with
    | some pr =>
      match splitOnFirst endMarker pr.2 with
      | some p2 => pr.1 ++ startMarker ++ li ++ endMarker ++ p2.2
      | none => home
    | none => home
  else home

/-- Lines 409-416 in full: when both markers occur the source calls
`pattern.sub(start + li_html + end, home, count=1)`; a replacement that
contains a backslash is parsed as a template against the group-free
pattern before any match is attempted (so bad escapes and group
references abort the call), otherwise it is spliced literally. -/
def sub_latest_region (li home : List Char) : Except ReError (List Char) :=
  if containsSub startMarker home && containsSub endMarker home then
    if containsSub [bslash] (startMarker ++ li ++ endMarker) then
      match parse_template 0 (startMarker ++ li ++ endMarker) with
      | .error e => .error e
      | .ok items =>
        .ok (match splitOnFirst startMarker home with
          | some pr =>
            match splitOnFirst endMarker pr.2 with
            | some p2 =>
              pr.1 ++ expandTemplate items (startMarker ++ p2.1 ++ endMarker) ++ p2.2
            | none => home
          | none => home)
    else .ok (sub_region_pure li home)
  else .ok home

/-- `rebuild_home_latest(home_index_path, blog_dir, max_items)` (line 384):
`none` models a missing homepage file (the function returns immediately);
`blogFiles` is the mtime-descending `blog/*.html` listing. -/
def rebuild_home_latest (home : Option (List Char))
    (blogFiles : List (String × String)) (max_items : ℕ) :
    Except ReError (Option (List Char)) :=
  match home with
  | none => .ok none
  | some h =>
    match sub_latest_region (liHtml (collectPosts max_items blogFiles 0)) h with
    | .error e => .error e
    | .ok h2 => .ok (some h2)

/-! ## Safety of the generated latest-posts markup -/

/-- Adjacent characters are not the comment opener `<!`; a string whose
adjacent pairs all satisfy this cannot contain either marker. -/
def NoLB (a b : Char) : Prop := ¬(a = '<' ∧ b = '!')

theorem noLB_of_left (x y : Char) (h : x ≠ '<') : NoLB x y := fun hc => h hc.1

theorem noLB_of_right (x y : Char) (h : y ≠ '!') : NoLB x y := fun hc => h hc.2

theorem chain'_noLB_iff (l : List Char) :
    List.Chain' NoLB l ↔ containsSub ['<', '!'] l = false := by
  induction l with
  | nil => simp [containsSub]
  | cons c rest ih =>
    cases rest with
    | nil =>
      simp only [containsSub, List.isPrefixOf, Bool.or_eq_false_iff]
      simp [List.chain'_singleton]
    | cons d rest' =>
      rw [List.chain'_cons, ih]
      simp only [containsSub, List.isPrefixOf, Bool.or_eq_false_iff, Bool.and_eq_false_iff]
      constructor
      · rintro ⟨hR, hrest⟩
        refine ⟨?_, by simpa [containsSub] using hrest⟩
        rw [NoLB] at hR
        by_cases h1 : c = '<'
        · right
          left
          subst h1
          have : ¬ d = '!' := fun hd => hR ⟨rfl, hd⟩
          simpa [beq_eq_false_iff_ne] using fun hd => this (by simpa using hd.symm)
        · left
          simpa [beq_eq_false_iff_ne] using fun hc => h1 (by simpa using hc.symm)
      · rintro ⟨h1, h2⟩
        refine ⟨?_, by simpa [containsSub] using h2⟩
        rw [NoLB]
        rintro ⟨rfl, rfl⟩
        rcases h1 with h1 | h1 | h1 <;> simp at h1

theorem escapeChar_ne_lt (c : Char) : ∀ d ∈ escapeChar c, d ≠ '<' := by
  rw [escapeChar]
  split_ifs with h1 h2 h3 h4 h5
  · decide
  · decide
  · decide
  · decide
  · decide
  · intro d hd
    rw [List.mem_singleton] at hd
    subst hd
    exact h2

theorem mem_htmlEscape_ne_lt (l : List Char) : ∀ d ∈ htmlEscape l, d ≠ '<' := by
  induction l with
  | nil => intro d hd; exact absurd hd (by simp [htmlEscape])
  | cons c rest ih =>
    intro d hd
    have : htmlEscape (c :: rest) = escapeChar c ++ htmlEscape rest := rfl
    rw [this, List.mem_append] at hd
    rcases hd with hd | hd
    · exact escapeChar_ne_lt c d hd
    · exact ih d hd

theorem chain'_noLB_of_no_lt (l : List Char) (h : ∀ c ∈ l, c ≠ '<') :
    List.Chain' NoLB l := by
  induction l with
  | nil => exact List.chain'_nil
  | cons c rest ih =>
    rw [List.chain'_cons']
    exact ⟨fun y _ => noLB_of_left c y (h c (List.mem_cons_self c rest)),
      ih (fun d hd => h d (List.mem_cons_of_mem c hd))⟩

theorem chain'_noLB_append_left (A B : List Char)
    (hA : List.Chain' NoLB A) (hB : List.Chain' NoLB B)
    (h : ∀ x ∈ A.getLast?, x ≠ '<') : List.Chain' NoLB (A ++ B) := by
  rw [List.chain'_append]
  exact ⟨hA, hB, fun x hx y _ => noLB_of_left x y (h x hx)⟩

theorem chain'_noLB_append_right (A B : List Char)
    (hA : List.Chain' NoLB A) (hB : List.Chain' NoLB B)
    (h : ∀ y ∈ B.head?, y ≠ '!') : List.Chain' NoLB (A ++ B) := by
  rw [List.chain'_append]
  exact ⟨hA, hB, fun x _ y hy => noLB_of_right x y (h y hy)⟩

theorem chain'_noLB_liEntry (slug title : String)
    (h : containsSub ['<', '!'] slug.data = false) :
    List.Chain' NoLB (liEntry slug title) := by
  rw [liEntry]
  have c1 : List.Chain' NoLB "<li><a href=\"/blog/".data := by
    rw [chain'_noLB_iff]; decide
  have c2 : List.Chain' NoLB ".html\">".data := by
    rw [chain'_noLB_iff]; decide
  have c3 : List.Chain' NoLB "</a></li>".data := by
    rw [chain'_noLB_iff]; decide
  have cslug : List.Chain' NoLB slug.data := (chain'_noLB_iff _).mpr h
  have cesc : List.Chain' NoLB (htmlEscape title.data) :=
    chain'_noLB_of_no_lt _ (mem_htmlEscape_ne_lt title.data)
  have s1 : List.Chain' NoLB ("<li><a href=\"/blog/".data ++ slug.data) :=
    chain'_noLB_append_left _ _ c1 cslug (by decide)
  have s2 : List.Chain' NoLB ("<li><a href=\"/blog/".data ++ slug.data ++ ".html\">".data) :=
    chain'_noLB_append_right _ _ s1 c2 (by decide)
  have hlast2 : ∀ x ∈ ("<li><a href=\"/blog/".data ++ slug.data ++ ".html\">".data).getLast?,
      x ≠ '<' := by
    rw [List.getLast?_append_of_ne_nil _ (by decide : (".html\">".data) ≠ [])]
    decide
  have s3 : List.Chain' NoLB
      ("<li><a href=\"/blog/".data ++ slug.data ++ ".html\">".data ++ htmlEscape title.data) :=
    chain'_noLB_append_left _ _ s2 cesc hlast2
  exact chain'_noLB_append_right _ _ s3 c3 (by decide)

theorem chain'_noLB_pyJoin (sep : List Char) (hsepne : sep ≠ [])
    (hsep : List.Chain' NoLB sep)
    (hsepHead : ∀ y ∈ sep.head?, y ≠ '!')
    (hsepLast : ∀ x ∈ sep.getLast?, x ≠ '<') :
    ∀ es, (∀ e ∈ es, List.Chain' NoLB e) → List.Chain' NoLB (pyJoin sep es) := by
  intro es
  induction es with
  | nil => intro _; rw [pyJoin]; exact List.chain'_nil
  | cons e es' ih =>
    intro h
    cases es' with
    | nil => rw [pyJoin]; exact h e (List.mem_cons_self e [])
    | cons y rest =>
      rw [pyJoin]
      apply chain'_noLB_append_left
      · exact chain'_noLB_append_right _ _ (h e (List.mem_cons_self e _)) hsep hsepHead
      · exact ih (fun e' he' => h e' (List.mem_cons_of_mem e he'))
      · rw [List.getLast?_append_of_ne_nil _ hsepne]
        exact hsepLast

theorem containsSub_ltBang_liHtml (posts : List (String × String))
    (h : ∀ p ∈ posts, containsSub ['<', '!'] p.1.data = false) :
    containsSub ['<', '!'] (liHtml posts) = false := by
  rw [← chain'_noLB_iff, liHtml]
  have hlead : List.Chain' NoLB "\n          ".data := by rw [chain'_noLB_iff]; decide
  have htail : List.Chain' NoLB "\n        ".data := by rw [chain'_noLB_iff]; decide
  have hjoin : List.Chain' NoLB
      (pyJoin "\n          ".data (posts.map (fun p => liEntry p.1 p.2))) := by
    apply chain'_noLB_pyJoin "\n          ".data (by decide) (by rw [chain'_noLB_iff]; decide)
      (by decide) (by decide)
    intro e he
    obtain ⟨p, hp, rfl⟩ := List.mem_map.mp he
    exact chain'_noLB_liEntry p.1 p.2 (h p hp)
  apply chain'_noLB_append_right
  · exact chain'_noLB_append_left _ _ hlead hjoin (by decide)
  · exact htail
  · decide

theorem collectPosts_fst_mem (max_items : ℕ) :
    ∀ bf k p, p ∈ collectPosts max_items bf k → p.1 ∈ bf.map Prod.fst := by
  intro bf
  induction bf with
  | nil => intro k p hp; exact absurd hp (by rw [collectPosts]; simp)
  | cons f rest ih =>
    intro k p hp
    obtain ⟨stem, content⟩ := f
    rw [collectPosts] at hp
    by_cases hidx : stem = "index"
    · rw [if_pos hidx] at hp
      exact List.mem_cons_of_mem _ (ih k p hp)
    · rw [if_neg hidx] at hp
      rcases List.mem_cons.mp hp with rfl | hp'
      · exact List.mem_cons_self _ _
      · by_cases hbreak : k + 1 ≥ max_items
        · rw [if_pos hbreak] at hp'
          exact absurd hp' (List.not_mem_nil p)
        · rw [if_neg hbreak] at hp'
          exact List.mem_cons_of_mem _ (ih (k + 1) p hp')

theorem endMarker_split_after (li post : List Char)
    (h : containsSub ['<', '!'] li = false) :
    splitOnFirst endMarker (li ++ endMarker ++ post) = some (li, post) := by
  apply splitOnFirst_of_minimal
  intro q hq hpre
  have hEM : endMarker = '<' :: '!' :: "-- LATEST_POSTS_END -->".data := rfl
  rw [List.append_assoc, List.drop_append_of_le_length (Nat.le_of_lt hq)] at hpre
  cases hd : li.drop q with
  | nil =>
    have : (li.drop q).length = li.length - q := List.length_drop q li
    rw [hd] at this
    simp at this
    omega
  | cons c d =>
    rw [hd] at hpre
    cases d with
    | nil =>
      rw [hEM, List.singleton_append] at hpre
      obtain ⟨hc, htl⟩ := List.cons_prefix_cons.mp hpre
      obtain ⟨hbang, _⟩ := List.cons_prefix_cons.mp htl
      exact absurd hbang (by decide)
    | cons c2 d' =>
      rw [hEM, List.cons_append, List.cons_append] at hpre
      obtain ⟨hc, htl⟩ := List.cons_prefix_cons.mp hpre
      obtain ⟨hc2, _⟩ := List.cons_prefix_cons.mp htl
      have : containsSub ['<', '!'] li = true := by
        rw [containsSub_eq_true_iff]
        refine ⟨q, ?_⟩
        rw [hd, hc, hc2]
        exact ⟨d', rfl⟩
      rw [this] at h
      exact absurd h (by simp)

theorem sub_region_pure_idem (li home : List Char)
    (hli : containsSub ['<', '!'] li = false) :
    sub_region_pure li (sub_region_pure li home) = sub_region_pure li home := by
  by_cases g : (containsSub startMarker home && containsSub endMarker home) = true
  · cases e1 : splitOnFirst startMarker home with
    | none =>
      rw [splitOnFirst_eq_none_iff] at e1
      rw [Bool.and_eq_true] at g
      rw [g.1] at e1
      exact absurd e1 (by simp)
    | some pr =>
      obtain ⟨pre, rest⟩ := pr
      cases e2 : splitOnFirst endMarker rest with
      | none =>
        have hfix : sub_region_pure li home = home := by
          rw [sub_region_pure, if_pos g, e1]
          show (match splitOnFirst endMarker rest with
            | some p2 => pre ++ startMarker ++ li ++ endMarker ++ p2.2
            | none => home) = home
          rw [e2]
        rw [hfix, hfix]
      | some p2 =>
        obtain ⟨mid, post⟩ := p2
        have hr1 : sub_region_pure li home =
            pre ++ startMarker ++ li ++ endMarker ++ post := by
          rw [sub_region_pure, if_pos g, e1]
          show (match splitOnFirst endMarker rest with
            | some p2 => pre ++ startMarker ++ li ++ endMarker ++ p2.2
            | none => home) = _
          rw [e2]
        obtain ⟨hdec1, hmin1⟩ := splitOnFirst_some_spec startMarker home pre rest e1
        set r1 := pre ++ startMarker ++ li ++ endMarker ++ post with hr1def
        have hshape : r1 = pre ++ startMarker ++ (li ++ (endMarker ++ post)) := by
          rw [hr1def]; simp [List.append_assoc]
        have hg1 : containsSub startMarker r1 = true := by
          rw [hshape]
          exact containsSub_of_append_middle startMarker pre (li ++ (endMarker ++ post))
        have hg2 : containsSub endMarker r1 = true := by
          rw [hr1def]
          exact containsSub_of_append_middle endMarker (pre ++ startMarker ++ li) post
        have hmin2 : ∀ q < pre.length, ¬ startMarker <+: r1.drop q := by
          intro q hq hbad
          apply hmin1 q hq
          have hle : q + startMarker.length ≤ (pre ++ startMarker).length := by
            rw [List.length_append]; omega
          rw [hshape] at hbad
          have h2 := (prefix_drop_append_iff startMarker (pre ++ startMarker)
            (li ++ (endMarker ++ post)) q hle).mp hbad
          rw [hdec1]
          exact (prefix_drop_append_iff startMarker (pre ++ startMarker) rest q hle).mpr h2
        have hsplit1 : splitOnFirst startMarker r1 = some (pre, li ++ (endMarker ++ post)) := by
          rw [hshape]
          apply splitOnFirst_of_minimal
          intro q hq hbad
          exact hmin2 q hq (by rw [hshape]; exact hbad)
        have hsplit2 : splitOnFirst endMarker (li ++ (endMarker ++ post)) = some (li, post) := by
          have := endMarker_split_after li post hli
          rwa [List.append_assoc] at this
        rw [hr1]
        rw [sub_region_pure, if_pos (by rw [hg1, hg2]; rfl), hsplit1]
        show (match splitOnFirst endMarker (li ++ (endMarker ++ post)) with
          | some p2 => pre ++ startMarker ++ li ++ endMarker ++ p2.2
          | none => r1) = r1
        rw [hsplit2]
  · have hfix : sub_region_pure li home = home := by
      rw [sub_region_pure, if_neg g]
    rw [hfix, hfix]

/-! ## `today_iso` (line 325) and the calendar -/

/-- Gregorian civil date from days since 1970-01-01 (the standard
era-based algorithm; valid for all days modelled here, which are ≥ 0). -/
def civilFromDays (z : ℕ) : ℕ × ℕ × ℕ :=
  let z' := z + 719468
  let era := z' / 146097
  let doe := z' % 146097
  let yoe := (doe - doe / 1460 + doe / 36524 - doe / 146097) / 365
  let y := yoe + era * 400
  let doy := doe - (365 * yoe + yoe / 4 - yoe / 100)
  let mp := (5 * doy + 2) / 153
  let d := doy - (153 * mp + 2) / 5 + 1
  let m := if mp < 10 then mp + 3 else mp - 9
  (if m ≤ 2 then y + 1 else y, m, d)

def pad2 (n : ℕ) : String := if n < 10 then "0" ++ natRepr n else natRepr n

def pad4 (y : ℕ) : String :=
  if y < 10 then "000" ++ natRepr y
  else if y < 100 then "00" ++ natRepr y
  else if y < 1000 then "0" ++ natRepr y
  else natRepr y

/-- `date.isoformat()`: `YYYY-MM-DD`. -/
def isoDate (ymd : ℕ × ℕ × ℕ) : String :=
  pad4 ymd.1 ++ "-" ++ pad2 ymd.2.1 ++ "-" ++ pad2 ymd.2.2

/-- `datetime.datetime.utcnow()`: UTC wall clock as (days since epoch,
second of day).  `host_tz` models the host timezone (seconds east of
UTC); it is deliberately unused because `utcnow` reads UTC regardless of
the host timezone. -/
def utcnow (host_tz : ℤ) (now_utc : ℕ) : ℕ × ℕ :=
  (now_utc / 86400, now_utc % 86400)

/-- `+ datetime.timedelta(...)`: add seconds and renormalize. -/
def addSeconds (dt : ℕ × ℕ) (s : ℕ) : ℕ × ℕ :=
  ((dt.1 * 86400 + dt.2 + s) / 86400, (dt.1 * 86400 + dt.2 + s) % 86400)

/-- `today_iso()` (line 325): `utcnow() + timedelta(hours=5, minutes=30)`,
then `.date().isoformat()`. -/
def today_iso (host_tz : ℤ) (now_utc : ℕ) : String :=
  isoDate (civilFromDays (addSeconds (utcnow host_tz now_utc) (5 * 3600 + 30 * 60)).1)

/-- The spec's description of the `lastmod` value: the ISO 8601 calendar
date of the instant shifted by the fixed +05:30 offset (19800 seconds),
written directly as arithmetic on the instant. -/
def spec_lastmod (now_utc : ℕ) : String :=
  isoDate (civilFromDays ((now_utc + 19800) / 86400))

/-! ## Topic selection (`pick_topic` line 90, `blocked` line 98) -/

def TOPIC_BUCKETS : List String := [
  "AI agents & tool-use patterns",
  "Next.js performance tips",
  "NestJS + DynamoDB patterns",
  "Rust + gRPC microservices",
  "GraphQL production recipes",
  "PostgreSQL tuning for SaaS"]

def ANGLES : List String := ["from-scratch guide", "production checklist",
  "pitfalls and fixes", "architecture patterns", "hands-on tutorial"]

def BANNED_KEYWORDS : List String := ["casino", "adult", "hate", "piracy"]

/-- Modelled from the spec: Python's global `random` generator (stdlib, not
part of this repository).  Per the spec, topic selection is "a fixed seed
derived from the date" feeding "a pseudo-random choice among a fixed topic
list and a fixed angle list": `random.seed(n)` resets the generator state
from `n` alone and each `random.choice(xs)` consumes one generator output
to pick an index below `len(xs)`.  The generator step is modelled as a
linear congruential map; only determinism and the index range matter. -/
def rngNext (state : ℕ) : ℕ × ℕ :=
  let s := (6364136223846793005 * state + 1442695040888963407) % (2 ^ 64)
  (s / (2 ^ 33), s)

/-- `random.choice(xs)` on a nonempty list, threading the generator state. -/
def rngChoice (xs : List String) (state : ℕ) : String × ℕ :=
  let r := rngNext state
  (xs.getD (r.1 % xs.length) "", r.2)

/-- `pick_topic()` (line 90): `random.seed(date.today().toordinal())`
discards the ambient generator state `ambient`, then two `random.choice`
draws build `f"{bucket}: {angle}"`. -/
def pick_topic (ambient : ℕ) (date_ordinal : ℕ) : String :=
  let b := rngChoice TOPIC_BUCKETS date_ordinal
  let a := rngChoice ANGLES b.2
  b.1 ++ ": " ++ a.1

/-- `blocked(topic)` (line 98): case-insensitive banned-keyword substring
test. -/
def blocked (topic : String) : Bool :=
  let t := topic.data.map Char.toLower
  BANNED_KEYWORDS.any (fun b => containsSub b.data t)

/-- Lines 447-450 of `main`: replace a blocked topic by the fixed fallback. -/
def choose_topic (ambient : ℕ) (date_ordinal : ℕ) : String :=
  let topic := pick_topic ambient date_ordinal
  if blocked topic then "AI agents & tool-use patterns: hands-on tutorial" else topic

theorem rngChoice_mem (xs : List String) (state : ℕ) (h : xs ≠ []) :
    (rngChoice xs state).1 ∈ xs := by
  rw [rngChoice]
  have hlen : 0 < xs.length := List.length_pos.mpr h
  have hlt : (rngNext state).1 % xs.length < xs.length := Nat.mod_lt _ hlen
  simp only
  rw [List.getD_eq_getElem?_getD, List.getElem?_eq_getElem hlt]
  exact List.getElem_mem hlt

theorem pick_topic_combo (ambient date_ordinal : ℕ) :
    ∃ b ∈ TOPIC_BUCKETS, ∃ a ∈ ANGLES,
      pick_topic ambient date_ordinal = b ++ ": " ++ a := by
  refine ⟨(rngChoice TOPIC_BUCKETS date_ordinal).1, ?_,
    (rngChoice ANGLES (rngChoice TOPIC_BUCKETS date_ordinal).2).1, ?_, rfl⟩
  · exact rngChoice_mem _ _ (by decide)
  · exact rngChoice_mem _ _ (by decide)

theorem combos_not_blocked :
    ∀ b ∈ TOPIC_BUCKETS, ∀ a ∈ ANGLES, blocked (b ++ ": " ++ a) = false := by
  decide

/-! ## ArticleRenderer (`render_page`, line 205) and the orchestrator -/

/-- The tag chips: `"".join(f'<span class="tag">{html.escape(t)}</span>' ...)`. -/
def tagSpans (tags : List String) : String :=
  String.join (tags.map (fun t => "<span class=\"tag\">" ++ escapeStr t ++ "</span>"))

/-- `render_page(site_url, slug, title, description, tags, body_html)`
(line 205).  `year` is `datetime.date.today().year` (the footer). -/
def render_page (site_url slug title description : String) (tags : List String)
    (body_html : String) (year : ℕ) : String :=
  let canonical := rstripSlash site_url ++ "/blog/" ++ slug ++ ".html"
  let tags_meta := if tags.isEmpty then "" else String.intercalate ", " tags
  "<!doctype html>\n<html lang=\"en\">\n<head>\n  <meta charset=\"utf-8\">\n  <title>" ++
    escapeStr title ++ " • Jainam Mehta</title>\n" ++
    "  <meta name=\"viewport\" content=\"width=device-width, initial-scale=1\">\n" ++
    "  <meta name=\"description\" content=\"" ++ escapeStr description ++ "\">\n" ++
    "  <meta name=\"keywords\" content=\"" ++ escapeStr tags_meta ++ "\">\n" ++
    "  <link rel=\"canonical\" href=\"" ++ canonical ++ "\">\n" ++
    "  <link rel=\"stylesheet\" href=\"/blog/styles.css\">\n" ++
    "  <meta property=\"og:title\" content=\"" ++ escapeStr title ++ "\">\n" ++
    "  <meta property=\"og:description\" content=\"" ++ escapeStr description ++ "\">\n" ++
    "  <meta property=\"og:type\" content=\"article\">\n" ++
    "  <meta property=\"og:url\" content=\"" ++ canonical ++ "\">\n" ++
    "</head>\n<body>\n  <header class=\"container\">\n" ++
    "    <nav><a href=\"/\">← Home</a> · <a href=\"/blog/\">Blog</a></nav>\n" ++
    "    <h1>" ++ escapeStr title ++ "</h1>\n" ++
    "    <p class=\"desc\">" ++ escapeStr description ++ "</p>\n" ++
    "    " ++ tagSpans tags ++ "\n    <hr>\n  </header>\n" ++
    "  <main class=\"container\">\n    " ++ body_html ++ "\n  </main>\n" ++
    "  <footer class=\"container\">\n    <hr>\n    <p>© " ++ natRepr year ++
    " Jainam Mehta</p>\n  </footer>\n</body>\n</html>\n"

/-- `{title, slug, description, tags[], html_body}` as returned by the
(external) generator after the normalization of lines 197-203. -/
structure ArticleDraft where
  title : String
  slug : String
  description : String
  tags : List String
  html_body : String

/-- The HTML body synthesized by `write_placeholder` (lines 421-429);
`now_iso` is `datetime.datetime.utcnow().isoformat()`. -/
def placeholder_body (now_iso : String) : String :=
  "\n<p><strong>TL;DR:</strong> Automated publishing could not reach the model provider today.</p>\n" ++
  "<p>This is a placeholder post generated at " ++ now_iso ++
  "Z. The job will retry tomorrow.</p>\n" ++
  "<h2>What happened?</h2>\n" ++
  "<p>Likely API key/billing/unavailability. Check GitHub Action logs for details.</p>\n" ++
  "<ul><li>OpenAI or OpenRouter outage</li><li>Missing/invalid API key</li><li>Model access not enabled</li></ul>\n" ++
  "<h2>Key Takeaways</h2>\n" ++
  "<ul><li>System is healthy; only the LLM call failed.</li><li>Daily job will keep running.</li></ul>\n"

/-- The mutable on-disk artifacts touched by one run.  `blogFiles` is the
`blog/*.html` listing минus the index page, most recently written first
(mtime-descending, as `rebuild_home_latest` sorts it); `memory` is the
`published` map of `.post_memory.json`. -/
structure PubState where
  blogFiles : List (String × String)
  indexDoc : List Char
  homeDoc : Option (List Char)
  sitemap : SitemapFile
  memory : List (String × List String)
deriving DecidableEq

/-- The ambient inputs of one run: configuration and clock readings. -/
structure Env where
  site_url : String
  today_local : String
  now_utc : ℕ
  now_iso : String
  year : ℕ
  host_tz : ℤ

/-- `mem["published"].setdefault(today, []); mem["published"][today].append(slug)`:
append under the (unique) key `day`, creating it if missing. -/
def memAppend (m : List (String × List String)) (day slug : String) :
    List (String × List String) :=
  match m with
  | [] => [(day, [slug])]
  | (d, slugs) :: rest =>
    if d = day then (d, slugs ++ [slug]) :: rest else (d, slugs) :: memAppend rest day slug

/-- Lookup of a day's slug list (empty if the day is absent). -/
def memLookup (m : List (String × List String)) (day : String) : List String :=
  match m with
  | [] => []
  | (d, slugs) :: rest => if d = day then slugs else memLookup rest day

/-- Stems of the existing `blog/*.html` files apart from the index page. -/
def stemsOf (bf : List (String × String)) : Finset String :=
  (bf.map Prod.fst).toFinset

/-- The directory snapshot `ensure_unique_slug` consults: every post stem
plus `"index"` (since `blog/index.html` exists after `ensure_blog_index`). -/
def dirStems (st : PubState) : Finset String :=
  insert "index" (stemsOf st.blogFiles)

/-- The merge/persist sequence shared verbatim by the success branch
(lines 482-494) and the failure branch (lines 457-466): write the page
under `slug`, prepend an index entry, upsert the sitemap, rebuild the
homepage list from the post-write listing (index freshly rewritten, new
post next, then the older files), append the slug to today's run log.
An `re.error` escaping one of the two regex substitutions propagates and
aborts the process there (nothing catches it), leaving the artifacts
written so far on disk and skipping the rest; the second component
records the escaped error, `none` meaning the run completed. -/
def publishSeq (env : Env) (st : PubState) (slug title : String) (page : String) :
    PubState × Option ReError :=
  let files1 := (slug, page) :: st.blogFiles
  match prepend_link_to_index st.indexDoc slug title env.today_local with
  | .error e => ({ st with blogFiles := files1 }, some e)
  | .ok index1 =>
    let sm1 := SitemapFile.ok
      (update_sitemap st.sitemap env.site_url slug (today_iso env.host_tz env.now_utc))
    match rebuild_home_latest st.homeDoc (("index", ⟨index1⟩) :: files1) 5 with
    | .error e =>
      ({ st with blogFiles := files1, indexDoc := index1, sitemap := sm1 }, some e)
    | .ok home1 =>
      ({ blogFiles := files1
         indexDoc := index1
         sitemap := sm1
         homeDoc := home1
         memory := memAppend st.memory env.today_local slug }, none)

/-- `main()` (line 435) after topic/generation: `gen` is the outcome of
`generate_article` (`none` = all attempts exhausted).  Each branch spells
out its own copy of the merge/persist steps, as the source does; the
result is the on-disk state when the process exits plus the uncaught
`re.error`, if one escaped. -/
def mainRun (env : Env) (st : PubState) (gen : Option ArticleDraft) :
    PubState × Option ReError :=
  match gen with
  | none =>
    -- lines 455-467: write_placeholder, then the persist steps
    let slug := ensure_unique_slug "publishing-temporarily-unavailable" (dirStems st)
    let title := "Publishing temporarily unavailable"
    let page := render_page env.site_url slug title
      "Automated publishing is temporarily unavailable." [] (placeholder_body env.now_iso)
      env.year
    let files1 := (slug, page) :: st.blogFiles
    match prepend_link_to_index st.indexDoc slug title env.today_local with
    | .error e => ({ st with blogFiles := files1 }, some e)
    | .ok index1 =>
      let sm1 := SitemapFile.ok
        (update_sitemap st.sitemap env.site_url slug (today_iso env.host_tz env.now_utc))
      match rebuild_home_latest st.homeDoc (("index", ⟨index1⟩) :: files1) 5 with
      | .error e =>
        ({ st with blogFiles := files1, indexDoc := index1, sitemap := sm1 }, some e)
      | .ok home1 =>
        ({ blogFiles := files1
           indexDoc := index1
           sitemap := sm1
           homeDoc := home1
           memory := memAppend st.memory env.today_local slug }, none)
  | some data =>
    -- lines 470-494
    let base_slug := if data.slug = "" then slugify data.title else data.slug
    let final_slug := ensure_unique_slug base_slug (dirStems st)
    let page := render_page env.site_url final_slug data.title data.description
      data.tags data.html_body env.year
    let files1 := (final_slug, page) :: st.blogFiles
    match prepend_link_to_index st.indexDoc final_slug data.title env.today_local with
    | .error e => ({ st with blogFiles := files1 }, some e)
    | .ok index1 =>
      let sm1 := SitemapFile.ok
        (update_sitemap st.sitemap env.site_url final_slug (today_iso env.host_tz env.now_utc))
      match rebuild_home_latest st.homeDoc (("index", ⟨index1⟩) :: files1) 5 with
      | .error e =>
        ({ st with blogFiles := files1, indexDoc := index1, sitemap := sm1 }, some e)
      | .ok home1 =>
        ({ blogFiles := files1
           indexDoc := index1
           sitemap := sm1
           homeDoc := home1
           memory := memAppend st.memory env.today_local final_slug }, none)

theorem memLookup_memAppend (m : List (String × List String)) (day slug : String) :
    memLookup (memAppend m day slug) day = memLookup m day ++ [slug] := by
  induction m with
  | nil => simp [memAppend, memLookup]
  | cons p rest ih =>
    obtain ⟨d, slugs⟩ := p
    by_cases hd : d = day
    · rw [memAppend, if_pos hd, memLookup, if_pos hd, memLookup, if_pos hd]
    · rw [memAppend, if_neg hd, memLookup, if_neg hd, memLookup, if_neg hd]
      exact ih


/-! ## Lemmas about replacement templates and backslash-free text -/

theorem isPrefixOf_single (x c : Char) (l : List Char) :
    List.isPrefixOf [x] (c :: l) = (x == c) := by
  simp [List.isPrefixOf]

theorem containsSub_single_append (x : Char) (a b : List Char) :
    containsSub [x] (a ++ b) = (containsSub [x] a || containsSub [x] b) := by
  induction a with
  | nil => simp [containsSub]
  | cons c a' ih =>
    rw [List.cons_append, containsSub, isPrefixOf_single, ih, containsSub,
      isPrefixOf_single, Bool.or_assoc]

theorem containsSub_single_eq_false_iff (x : Char) (l : List Char) :
    containsSub [x] l = false ↔ x ∉ l := by
  induction l with
  | nil => simp [containsSub]
  | cons c rest ih =>
    rw [containsSub, isPrefixOf_single, Bool.or_eq_false_iff, ih, List.mem_cons]
    constructor
    · rintro ⟨h1, h2⟩ h3
      rcases h3 with h3 | h3
      · rw [h3] at h1; simp at h1
      · exact h2 h3
    · intro h
      exact ⟨beq_eq_false_iff_ne.mpr (fun hh => h (Or.inl hh)),
        fun hm => h (Or.inr hm)⟩

theorem parse_template_nil (groups : ℕ) : parse_template groups [] = .ok [] := rfl

theorem parseTemplateF_no_bslash (groups : ℕ) :
    ∀ fuel l, l.length < fuel → bslash ∉ l →
      parseTemplateF groups fuel l = .ok (l.map .chr) := by
  intro fuel
  induction fuel with
  | zero => intro l hl _; exact absurd hl (by omega)
  | succ fuel ih =>
    intro l hl hbs
    cases l with
    | nil => rfl
    | cons c rest =>
      have hc : ¬ c = bslash := fun hc => hbs (hc ▸ List.mem_cons_self c rest)
      have hlen : rest.length < fuel := by
        simp only [List.length_cons] at hl
        omega
      show (if c = bslash then _ else
        (parseTemplateF groups fuel rest).map (fun t => .chr c :: t)) = _
      rw [if_neg hc, ih rest hlen (fun hm => hbs (List.mem_cons_of_mem c hm))]
      rfl

theorem parse_template_no_bslash (groups : ℕ) (l : List Char) (h : bslash ∉ l) :
    parse_template groups l = .ok (l.map .chr) :=
  parseTemplateF_no_bslash groups (l.length + 1) l (Nat.lt_succ_self _) h

theorem parse_template_cons_plain (groups : ℕ) (c : Char) (rest : List Char)
    (hc : ¬ c = bslash) :
    parse_template groups (c :: rest) = (parse_template groups rest).map
      (fun t => .chr c :: t) := by
  show (if c = bslash then _ else
    (parseTemplateF groups (rest.length + 1) rest).map (fun t => .chr c :: t)) = _
  rw [if_neg hc]
  rfl

/-- The inserted index entry after its leading newline (`linkHtml`
decomposes as `'\\n' :: linkTail`). -/
def linkTail (slug title today : String) : List Char :=
  "      <li><a href=\"/blog/".data ++ slug.data ++ ".html\">".data ++
    htmlEscape title.data ++ "</a> <small>— ".data ++ today.data ++ "</small></li>".data

theorem linkHtml_cons (slug title today : String) :
    linkHtml slug title today = '\n' :: linkTail slug title today := rfl

set_option maxHeartbeats 1000000 in
theorem parseTemplateF_group1_newline (fuel : ℕ) (rest3 : List Char) :
    parseTemplateF 1 (fuel + 1) (bslash :: '1' :: '\n' :: rest3) =
      (parseTemplateF 1 fuel ('\n' :: rest3)).map (fun t => .grp 1 :: t) := rfl

theorem parse_template_group1_newline (l : List Char) (hbs : bslash ∉ l) :
    parse_template 1 (bslash :: '1' :: '\n' :: l) = .ok (.grp 1 :: ('\n' :: l).map .chr) := by
  have h1 : parse_template 1 (bslash :: '1' :: '\n' :: l) =
      parseTemplateF 1 ((bslash :: '1' :: '\n' :: l).length + 1) (bslash :: '1' :: '\n' :: l) :=
    rfl
  rw [h1]
  simp only [List.length_cons]
  rw [parseTemplateF_group1_newline]
  have hbs2 : bslash ∉ '\n' :: l := by
    intro hm
    rcases List.mem_cons.mp hm with h | h
    · exact absurd h (by decide)
    · exact hbs h
  rw [parseTemplateF_no_bslash 1 _ ('\n' :: l) (by simp) hbs2]
  rfl

theorem expandTemplate_map_chr (l w : List Char) :
    expandTemplate (l.map .chr) w = l := by
  induction l with
  | nil => rfl
  | cons c rest ih =>
    show [c] ++ expandTemplate (rest.map .chr) w = c :: rest
    rw [ih]
    rfl

theorem expandTemplate_grp_cons (n : ℕ) (l w : List Char) :
    expandTemplate (.grp n :: l.map .chr) w = w ++ l := by
  show w ++ expandTemplate (l.map .chr) w = w ++ l
  rw [expandTemplate_map_chr]

theorem subFirstCIExpand_grp_link (pat link : List Char) :
    ∀ doc, subFirstCIExpand pat (.grp 1 :: link.map .chr) doc =
      subAfterFirstCI pat link doc := by
  intro doc
  induction doc with
  | nil => rfl
  | cons c rest ih =>
    by_cases hm : ciPref pat (c :: rest) = true
    · rw [subFirstCIExpand, if_pos hm, subAfterFirstCI, if_pos hm,
        expandTemplate_grp_cons, List.append_assoc]
    · rw [subFirstCIExpand, if_neg hm, subAfterFirstCI, if_neg hm, ih]

/-! ## Backslash-free text -/

theorem escapeChar_no_bslash (c : Char) (hc : c ≠ bslash) : bslash ∉ escapeChar c := by
  rw [escapeChar]
  split_ifs
  · decide
  · decide
  · decide
  · decide
  · decide
  · intro hm
    rw [List.mem_singleton] at hm
    exact hc hm.symm

theorem htmlEscape_no_bslash (l : List Char) (h : bslash ∉ l) :
    bslash ∉ htmlEscape l := by
  induction l with
  | nil => intro hm; exact absurd hm (by simp [htmlEscape])
  | cons c rest ih =>
    intro hm
    have hstep : htmlEscape (c :: rest) = escapeChar c ++ htmlEscape rest := rfl
    rw [hstep, List.mem_append] at hm
    rcases hm with hm | hm
    · exact escapeChar_no_bslash c (fun hc => h (hc ▸ List.mem_cons_self c rest)) hm
    · exact ih (fun hx => h (List.mem_cons_of_mem c hx)) hm

theorem mem_natDigits_digit (n : ℕ) : ∀ c ∈ natDigits n, 48 ≤ c.toNat ∧ c.toNat ≤ 57 := by
  induction n using Nat.strong_induction_on with
  | _ n ih =>
    match n with
    | 0 => intro c hc; exact absurd hc (by rw [natDigits]; simp)
    | n + 1 =>
      intro c hc
      rw [natDigits, List.mem_append] at hc
      rcases hc with hc | hc
      · exact ih ((n + 1) / 10) (Nat.div_lt_self (Nat.succ_pos n) (by omega)) c hc
      · rw [List.mem_singleton] at hc
        subst hc
        rw [toNat_digitChar _ (Nat.mod_lt _ (by omega))]
        omega

theorem natRepr_no_bslash (n : ℕ) : bslash ∉ (natRepr n).data := by
  rw [natRepr]
  by_cases h : n = 0
  · rw [if_pos h]; decide
  · rw [if_neg h]
    intro hm
    have := mem_natDigits_digit n bslash hm
    have hbs : bslash.toNat = 92 := rfl
    omega

theorem ensure_unique_slug_no_bslash (base : String) (existing : Finset String)
    (h : bslash ∉ (slugify base).data) :
    bslash ∉ (ensure_unique_slug base existing).data := by
  rw [ensure_unique_slug]
  by_cases hmem : slugify base ∈ existing
  · simp only [hmem, if_true]
    intro hm
    rw [show slugCand (slugify base) (findSuffix (slugify base) existing (existing.card + 1) 2) =
      slugify base ++ "-" ++ natRepr (findSuffix (slugify base) existing (existing.card + 1) 2)
      from rfl] at hm
    simp only [String.data_append, List.mem_append] at hm
    rcases hm with (hm | hm) | hm
    · exact h hm
    · exact absurd hm (by decide)
    · exact natRepr_no_bslash _ hm
  · simp only [hmem, if_false]
    exact h

theorem linkHtml_no_bslash (slug title today : String)
    (hs : bslash ∉ slug.data) (ht : bslash ∉ title.data) (hd : bslash ∉ today.data) :
    bslash ∉ linkHtml slug title today := by
  rw [linkHtml]
  intro hm
  simp only [List.mem_append] at hm
  rcases hm with (((((hm | hm) | hm) | hm) | hm) | hm) | hm
  · exact absurd hm (by decide)
  · exact hs hm
  · exact absurd hm (by decide)
  · exact htmlEscape_no_bslash title.data ht hm
  · exact absurd hm (by decide)
  · exact hd hm
  · exact absurd hm (by decide)

theorem prepend_link_to_index_ok (doc : List Char) (slug title today : String)
    (h : bslash ∉ linkHtml slug title today) :
    prepend_link_to_index doc slug title today =
      .ok (subAfterFirstCI ulMarker (linkHtml slug title today) doc) := by
  have hbs : bslash ∉ linkTail slug title today := fun hm =>
    h (linkHtml_cons slug title today ▸ List.mem_cons_of_mem _ hm)
  have hpt : parse_template 1 (bslash :: '1' :: linkHtml slug title today) =
      .ok (.grp 1 :: (linkHtml slug title today).map .chr) := by
    rw [linkHtml_cons slug title today]
    exact parse_template_group1_newline _ hbs
  show (match parse_template 1 (bslash :: '1' :: linkHtml slug title today) with
    | Except.error e => Except.error e
    | Except.ok items => Except.ok (subFirstCIExpand ulMarker items doc)) =
    Except.ok (subAfterFirstCI ulMarker (linkHtml slug title today) doc)
  rw [hpt]
  show Except.ok (subFirstCIExpand ulMarker
    (ReplItem.grp 1 :: (linkHtml slug title today).map .chr) doc) = _
  rw [subFirstCIExpand_grp_link]

/-! ## Backslash-freedom of derived texts -/

theorem no_bslash_append (s t : List Char) (hs : bslash ∉ s) (ht : bslash ∉ t) :
    bslash ∉ s ++ t := by
  rw [List.mem_append]
  rintro (h | h)
  exacts [hs h, ht h]

theorem no_bslash_sappend (s t : String) (hs : bslash ∉ s.data) (ht : bslash ∉ t.data) :
    bslash ∉ (s ++ t).data := by
  rw [String.data_append]
  exact no_bslash_append s.data t.data hs ht

theorem pyStrip_subset (l : List Char) : ∀ c ∈ pyStrip l, c ∈ l := by
  intro c h
  rw [pyStrip, List.mem_reverse] at h
  have h2 : c ∈ (l.dropWhile Char.isWhitespace).reverse :=
    (List.dropWhile_sublist Char.isWhitespace).subset h
  rw [List.mem_reverse] at h2
  exact (List.dropWhile_sublist Char.isWhitespace).subset h2

theorem rstripSlash_subset (s : String) : ∀ c ∈ (rstripSlash s).data, c ∈ s.data := by
  intro c h
  have h1 : c ∈ (s.data.reverse.dropWhile (fun c => c = '/')).reverse := h
  rw [List.mem_reverse] at h1
  have h2 := (List.dropWhile_sublist _).subset h1
  rwa [List.mem_reverse] at h2

theorem replaceAllF_subset (pat repl : List Char) :
    ∀ fuel l c, c ∈ replaceAllF pat repl fuel l → c ∈ repl ∨ c ∈ l := by
  intro fuel
  induction fuel with
  | zero =>
    intro l c h
    cases l with
    | nil => exact absurd h (List.not_mem_nil c)
    | cons x rest => exact Or.inr h
  | succ fuel ih =>
    intro l c h
    cases l with
    | nil => exact absurd h (List.not_mem_nil c)
    | cons x rest =>
      rw [replaceAllF] at h
      by_cases hp : pat.isPrefixOf (x :: rest) = true ∧ pat ≠ []
      · rw [if_pos hp, List.mem_append] at h
        rcases h with h | h
        · exact Or.inl h
        · rcases ih _ c h with h | h
          · exact Or.inl h
          · exact Or.inr (List.mem_of_mem_drop h)
      · rw [if_neg hp] at h
        rcases List.mem_cons.mp h with rfl | h
        · exact Or.inr (List.mem_cons_self _ _)
        · rcases ih rest c h with h | h
          · exact Or.inl h
          · exact Or.inr (List.mem_cons_of_mem _ h)

theorem replaceAll_subset (pat repl l : List Char) (c : Char)
    (h : c ∈ replaceAll pat repl l) : c ∈ repl ∨ c ∈ l :=
  replaceAllF_subset pat repl l.length l c h

theorem splitOnFirstCI_subset (pat : List Char) :
    ∀ l a b, splitOnFirstCI pat l = some (a, b) →
      (∀ c ∈ a, c ∈ l) ∧ (∀ c ∈ b, c ∈ l) := by
  intro l
  induction l with
  | nil =>
    intro a b h
    rw [splitOnFirstCI] at h
    by_cases hp : pat.isEmpty = true
    · rw [if_pos hp] at h
      simp only [Option.some.injEq, Prod.mk.injEq] at h
      obtain ⟨rfl, rfl⟩ := h
      exact ⟨fun c hc => hc, fun c hc => hc⟩
    · rw [if_neg hp] at h
      exact absurd h (by simp)
  | cons x rest ih =>
    intro a b h
    rw [splitOnFirstCI] at h
    by_cases hp : ciPref pat (x :: rest) = true
    · rw [if_pos hp] at h
      simp only [Option.some.injEq, Prod.mk.injEq] at h
      obtain ⟨rfl, rfl⟩ := h
      exact ⟨fun c hc => absurd hc (List.not_mem_nil c),
        fun c hc => List.mem_of_mem_drop hc⟩
    · rw [if_neg hp] at h
      cases e : splitOnFirstCI pat rest with
      | none => rw [e] at h; exact absurd h (by simp)
      | some pr =>
        rw [e, show (some pr).map (fun p => (x :: p.1, p.2)) =
          some (x :: pr.1, pr.2) from rfl] at h
        simp only [Option.some.injEq, Prod.mk.injEq] at h
        obtain ⟨h1, h2⟩ := h
        subst h1
        subst h2
        obtain ⟨ha, hb⟩ := ih pr.1 pr.2 (by rw [e])
        refine ⟨?_, fun c hc => List.mem_cons_of_mem x (hb c hc)⟩
        intro c hc
        rcases List.mem_cons.mp hc with rfl | hc
        · exact List.mem_cons_self _ _
        · exact List.mem_cons_of_mem x (ha c hc)

theorem mem_extractTitle (stem : String) (content : List Char) (c : Char)
    (h : c ∈ (extractTitle stem content).data) : c ∈ stem.data ∨ c ∈ content := by
  simp only [extractTitle] at h
  cases e1 : splitOnFirstCI titleOpen content with
  | none => simp only [e1] at h; exact Or.inl h
  | some p =>
    simp only [e1] at h
    cases e2 : splitOnFirstCI titleClose p.2 with
    | none => simp only [e2] at h; exact Or.inl h
    | some q =>
      simp only [e2] at h
      have h1 : c ∈ pyStrip (replaceAll siteSuffix [] q.1) := h
      have h2 := pyStrip_subset (replaceAll siteSuffix [] q.1) c h1
      rcases replaceAll_subset siteSuffix [] q.1 c h2 with h3 | h3
      · exact absurd h3 (List.not_mem_nil c)
      · right
        have h4 := (splitOnFirstCI_subset titleClose p.2 q.1 q.2 (by rw [e2])).1 c h3
        exact (splitOnFirstCI_subset titleOpen content p.1 p.2 (by rw [e1])).2 c h4

theorem liEntry_no_bslash (slug title : String) (hs : bslash ∉ slug.data)
    (ht : bslash ∉ title.data) : bslash ∉ liEntry slug title := by
  simp only [liEntry]
  repeat' apply no_bslash_append
  all_goals first
    | decide
    | exact hs
    | exact htmlEscape_no_bslash title.data ht

theorem pyJoin_no_bslash (sep : List Char) (hsep : bslash ∉ sep) :
    ∀ es, (∀ e ∈ es, bslash ∉ e) → bslash ∉ pyJoin sep es := by
  intro es
  induction es with
  | nil => intro _; rw [pyJoin]; exact List.not_mem_nil bslash
  | cons x rest ih =>
    intro h
    cases rest with
    | nil => rw [pyJoin]; exact h x (List.mem_cons_self x [])
    | cons y rest2 =>
      rw [pyJoin]
      apply no_bslash_append
      · exact no_bslash_append x sep (h x (List.mem_cons_self x _)) hsep
      · exact ih (fun e he => h e (List.mem_cons_of_mem x he))

theorem liHtml_no_bslash (posts : List (String × String))
    (h : ∀ p ∈ posts, bslash ∉ p.1.data ∧ bslash ∉ p.2.data) :
    bslash ∉ liHtml posts := by
  simp only [liHtml]
  apply no_bslash_append
  · apply no_bslash_append
    · decide
    · refine pyJoin_no_bslash _ (by decide) _ ?_
      intro e he
      obtain ⟨p, hp, rfl⟩ := List.mem_map.mp he
      exact liEntry_no_bslash p.1 p.2 (h p hp).1 (h p hp).2
  · decide

theorem collectPosts_mem_spec (max_items : ℕ) :
    ∀ bf k p, p ∈ collectPosts max_items bf k →
      p.1 ≠ "index" ∧
        ∃ content, (p.1, content) ∈ bf ∧ p.2 = extractTitle p.1 content.data := by
  intro bf
  induction bf with
  | nil =>
    intro k p hp
    exact absurd hp (by rw [collectPosts]; exact List.not_mem_nil p)
  | cons f rest ih =>
    intro k p hp
    obtain ⟨stem, content⟩ := f
    rw [collectPosts] at hp
    by_cases hidx : stem = "index"
    · rw [if_pos hidx] at hp
      obtain ⟨h1, c, hc, he⟩ := ih k p hp
      exact ⟨h1, c, List.mem_cons_of_mem _ hc, he⟩
    · rw [if_neg hidx] at hp
      rcases List.mem_cons.mp hp with heq | hp2
      · rw [heq]
        exact ⟨hidx, content, List.mem_cons_self _ _, rfl⟩
      · by_cases hbreak : k + 1 ≥ max_items
        · rw [if_pos hbreak] at hp2
          exact absurd hp2 (List.not_mem_nil p)
        · rw [if_neg hbreak] at hp2
          obtain ⟨h1, c, hc, he⟩ := ih (k + 1) p hp2
          exact ⟨h1, c, List.mem_cons_of_mem _ hc, he⟩

theorem liHtml_collect_no_bslash (m : ℕ) (bf : List (String × String))
    (h : ∀ p ∈ bf, p.1 ≠ "index" →
      bslash ∉ p.1.data ∧ bslash ∉ (extractTitle p.1 p.2.data).data) :
    bslash ∉ liHtml (collectPosts m bf 0) := by
  apply liHtml_no_bslash
  intro p hp
  obtain ⟨hne, c, hc, he⟩ := collectPosts_mem_spec m bf 0 p hp
  obtain ⟨h1, h2⟩ := h (p.1, c) hc hne
  exact ⟨h1, he ▸ h2⟩

theorem ltBang_collect (m : ℕ) (bf : List (String × String))
    (h : ∀ p ∈ bf, p.1 ≠ "index" → containsSub ['<', '!'] p.1.data = false) :
    containsSub ['<', '!'] (liHtml (collectPosts m bf 0)) = false := by
  apply containsSub_ltBang_liHtml
  intro p hp
  obtain ⟨hne, c, hc, _⟩ := collectPosts_mem_spec m bf 0 p hp
  exact h (p.1, c) hc hne

theorem render_page_no_bslash (site_url slug title description body : String) (year : ℕ)
    (hs : bslash ∉ site_url.data) (hl : bslash ∉ slug.data) (ht : bslash ∉ title.data)
    (hd : bslash ∉ description.data) (hb : bslash ∉ body.data) :
    bslash ∉ (render_page site_url slug title description [] body year).data := by
  simp only [render_page]
  repeat' apply no_bslash_sappend
  all_goals first
    | decide
    | exact hb
    | exact htmlEscape_no_bslash title.data ht
    | exact htmlEscape_no_bslash description.data hd
    | exact hl
    | exact natRepr_no_bslash year
    | exact fun hm => hs (rstripSlash_subset site_url bslash hm)

theorem placeholder_body_no_bslash (now_iso : String) (h : bslash ∉ now_iso.data) :
    bslash ∉ (placeholder_body now_iso).data := by
  simp only [placeholder_body]
  repeat' apply no_bslash_sappend
  all_goals first | decide | exact h

/-! ## The fast path of the homepage substitution and the persist sequence -/

theorem sub_latest_region_ok (li home : List Char) (hli : bslash ∉ li) :
    sub_latest_region li home = .ok (sub_region_pure li home) := by
  by_cases g : (containsSub startMarker home && containsSub endMarker home) = true
  · have hno : containsSub [bslash] (startMarker ++ li ++ endMarker) = false := by
      rw [containsSub_single_append, containsSub_single_append,
        (containsSub_single_eq_false_iff bslash startMarker).mpr (by decide),
        (containsSub_single_eq_false_iff bslash li).mpr hli,
        (containsSub_single_eq_false_iff bslash endMarker).mpr (by decide)]
      rfl
    rw [sub_latest_region, if_pos g, hno]
    rfl
  · rw [sub_latest_region, if_neg g, sub_region_pure, if_neg g]

theorem rebuild_home_latest_ok (home : List Char) (bf : List (String × String)) (m : ℕ)
    (h : bslash ∉ liHtml (collectPosts m bf 0)) :
    rebuild_home_latest (some home) bf m =
      .ok (some (sub_region_pure (liHtml (collectPosts m bf 0)) home)) := by
  show (match sub_latest_region (liHtml (collectPosts m bf 0)) home with
    | Except.error e => (Except.error e : Except ReError (Option (List Char)))
    | Except.ok h2 => Except.ok (some h2)) =
    Except.ok (some (sub_region_pure (liHtml (collectPosts m bf 0)) home))
  rw [sub_latest_region_ok (liHtml (collectPosts m bf 0)) home h]

set_option maxHeartbeats 1000000 in
theorem publishSeq_ok (env : Env) (st : PubState) (slug title page : String)
    (index1 : List Char) (home1 : Option (List Char))
    (hpre : prepend_link_to_index st.indexDoc slug title env.today_local = .ok index1)
    (hreb : rebuild_home_latest st.homeDoc
      (("index", (⟨index1⟩ : String)) :: (slug, page) :: st.blogFiles) 5 = .ok home1) :
    publishSeq env st slug title page =
      ({ blogFiles := (slug, page) :: st.blogFiles
         indexDoc := index1
         sitemap := .ok (update_sitemap st.sitemap env.site_url slug
           (today_iso env.host_tz env.now_utc))
         homeDoc := home1
         memory := memAppend st.memory env.today_local slug }, none) := by
  have step1 : publishSeq env st slug title page =
      (match rebuild_home_latest st.homeDoc
          (("index", (⟨index1⟩ : String)) :: (slug, page) :: st.blogFiles) 5 with
        | Except.error e =>
          (({ st with
              blogFiles := (slug, page) :: st.blogFiles
              indexDoc := index1
              sitemap := SitemapFile.ok (update_sitemap st.sitemap env.site_url slug
                (today_iso env.host_tz env.now_utc)) }, some e) : PubState × Option ReError)
        | Except.ok home2 =>
          ({ blogFiles := (slug, page) :: st.blogFiles
             indexDoc := index1
             sitemap := SitemapFile.ok (update_sitemap st.sitemap env.site_url slug
               (today_iso env.host_tz env.now_utc))
             homeDoc := home2
             memory := memAppend st.memory env.today_local slug }, none)) := by
    show (match prepend_link_to_index st.indexDoc slug title env.today_local with
      | Except.error e =>
        (({ st with blogFiles := (slug, page) :: st.blogFiles }, some e) :
          PubState × Option ReError)
      | Except.ok idx =>
        match rebuild_home_latest st.homeDoc
            (("index", (⟨idx⟩ : String)) :: (slug, page) :: st.blogFiles) 5 with
        | Except.error e =>
          ({ st with
              blogFiles := (slug, page) :: st.blogFiles
              indexDoc := idx
              sitemap := SitemapFile.ok (update_sitemap st.sitemap env.site_url slug
                (today_iso env.host_tz env.now_utc)) }, some e)
        | Except.ok home2 =>
          ({ blogFiles := (slug, page) :: st.blogFiles
             indexDoc := idx
             sitemap := SitemapFile.ok (update_sitemap st.sitemap env.site_url slug
               (today_iso env.host_tz env.now_utc))
             homeDoc := home2
             memory := memAppend st.memory env.today_local slug }, none)) = _
    rw [hpre]
  rw [step1, hreb]

/-- The fixed title of the failure-branch placeholder post (line 457). -/
def phTitle : String := "Publishing temporarily unavailable"

/-- The stem the failure branch allocates (lines 456-458). -/
def phSlug (st : PubState) : String :=
  ensure_unique_slug "publishing-temporarily-unavailable" (dirStems st)

/-- The page the failure branch renders (`write_placeholder`, lines 419-432). -/
def phPage (env : Env) (st : PubState) : String :=
  render_page env.site_url (phSlug st) phTitle
    "Automated publishing is temporarily unavailable." [] (placeholder_body env.now_iso)
    env.year

/-- Decidable equality for `Except` results (used to evaluate concrete
runs of the fallible substitutions). -/
def exceptDecEq {e a : Type} [DecidableEq e] [DecidableEq a] : DecidableEq (Except e a)
  | .error x, .error y =>
    if h : x = y then .isTrue (by rw [h]) else .isFalse (fun hc => h (by cases hc; rfl))
  | .error x, .ok y => .isFalse (fun hc => by cases hc)
  | .ok x, .error y => .isFalse (fun hc => by cases hc)
  | .ok x, .ok y =>
    if h : x = y then .isTrue (by rw [h]) else .isFalse (fun hc => h (by cases hc; rfl))

instance {e a : Type} [DecidableEq e] [DecidableEq a] : DecidableEq (Except e a) :=
  exceptDecEq

/-! ## Claim theorems -/

/-- C1 counterexample: upserting into a malformed (unparseable) sitemap
yields only the new `/blog/redis-caching.html` entry; no entry for the
site root (the seeded homepage entry the claim requires) is present, so
the claim as stated fails on this input. -/
theorem sitemap_corrupt_no_home_seed_cex :
    (update_sitemap .corrupt "https://jainammehta.in" "redis-caching" "2026-10-12").entries =
      [newUrlEntry "https://jainammehta.in/blog/redis-caching.html" "2026-10-12"] ∧
    ∀ e ∈ (update_sitemap .corrupt "https://jainammehta.in" "redis-caching" "2026-10-12").entries,
      entryMatchesLoc "https://jainammehta.in/" e = false := by
  constructor
  · decide
  · decide

/-- C1 (amended): feeding a malformed sitemap to the upsert does not fail
and produces a well-formed document containing exactly the new
`{siteURL}/blog/{slug}.html` entry (lastmod = today, priority 0.7) and
nothing else; the seeded homepage entry (priority 1.0) is added only when
the sitemap file is absent, not on parse failure. -/
theorem sitemap_corrupt_rebuild (site slug lm : String) :
    update_sitemap .corrupt site slug lm = ⟨[newUrlEntry (loc_value site slug) lm]⟩ ∧
    update_sitemap .absent site slug lm =
      ⟨[seedHomeEntry site lm, newUrlEntry (loc_value site slug) lm]⟩ := by
  constructor
  · rfl
  · have hnone : updateFirstMatch (loc_value site slug) lm [seedHomeEntry site lm] = none :=
      updateFirstMatch_none_of_all _ _ _ (fun e he => by
        rw [List.mem_singleton] at he
        subst he
        exact entryMatchesLoc_seedHome site slug lm)
    rw [update_sitemap]
    show (match updateFirstMatch (loc_value site slug) lm [seedHomeEntry site lm] with
      | some es => (⟨es⟩ : Urlset)
      | none => ⟨[seedHomeEntry site lm] ++ [newUrlEntry (loc_value site slug) lm]⟩) =
      ⟨[seedHomeEntry site lm, newUrlEntry (loc_value site slug) lm]⟩
    rw [hnone]
    rfl

/-- C2: slug allocation returns the normalized token unchanged when it is
free, otherwise the token with the first numeric suffix `-2`, `-3`, …
whose file does not exist; and the run of colliding allocations of
`"redis-caching"` yields `redis-caching, redis-caching-2, …,
redis-caching-N` in order. -/
theorem slug_allocation_correct :
    (∀ base existing, slugify base ∉ existing →
      ensure_unique_slug base existing = slugify base) ∧
    (∀ base existing, slugify base ∈ existing →
      ∃ i, 2 ≤ i ∧ ensure_unique_slug base existing = slugCand (slugify base) i ∧
        slugCand (slugify base) i ∉ existing ∧
        ∀ k, 2 ≤ k → k < i → slugCand (slugify base) k ∈ existing) ∧
    (∀ k, rcSlug k =
      (if k = 0 then "redis-caching" else slugCand "redis-caching" (k + 1))) := by
  refine ⟨?_, ?_, ?_⟩
  · intro base existing h
    rw [ensure_unique_slug]
    simp only [h, if_false]
  · intro base existing h
    rw [ensure_unique_slug]
    simp only [h, if_true]
    obtain ⟨j, h1, h2, h3⟩ := exists_free_cand (slugify base) existing
    obtain ⟨q1, q2, q3⟩ := findSuffix_spec (slugify base) existing (existing.card + 1) 2
      ⟨j, h1, by omega, h3⟩
    exact ⟨findSuffix (slugify base) existing (existing.card + 1) 2, q2, rfl, q1, q3⟩
  · intro k
    exact (rcRun_closed k).2

/-- C2 witness: a fresh candidate is returned unchanged, and a colliding
candidate receives the first free numeric suffix. -/
theorem slug_allocation_correct_witness :
    ensure_unique_slug "Redis Caching" (∅ : Finset String) = slugify "Redis Caching" ∧
    ∃ i, 2 ≤ i ∧
      ensure_unique_slug "redis-caching" ({"redis-caching"} : Finset String) =
        slugCand (slugify "redis-caching") i ∧
      slugCand (slugify "redis-caching") i ∉ ({"redis-caching"} : Finset String) ∧
      ∀ k, 2 ≤ k → k < i →
        slugCand (slugify "redis-caching") k ∈ ({"redis-caching"} : Finset String) :=
  ⟨slug_allocation_correct.1 "Redis Caching" ∅ (by decide),
   slug_allocation_correct.2.1 "redis-caching" {"redis-caching"} (by decide)⟩

/-- C3: upserting an existing location rewrites only that entry's first
`lastmod` child (creating one at the end of the entry when absent),
preserving every other child and every other entry verbatim; an absent
location appends one fresh entry (lastmod = today, priority 0.7) at the
end, preserving all prior entries. -/
theorem sitemap_upsert_frame (site slug lm : String) (u : Urlset) :
    (∀ l₁ e l₂, u.entries = l₁ ++ e :: l₂ →
      (∀ e' ∈ l₁, entryMatchesLoc (loc_value site slug) e' = false) →
      entryMatchesLoc (loc_value site slug) e = true →
      update_sitemap (.ok u) site slug lm = ⟨l₁ ++ ⟨setLastmod lm e.children⟩ :: l₂⟩ ∧
      (∀ c₁ lmc c₂, e.children = c₁ ++ lmc :: c₂ →
        (∀ c ∈ c₁, c.tag ≠ lastmod_tag) → lmc.tag = lastmod_tag →
        setLastmod lm e.children = c₁ ++ ⟨lastmod_tag, lm⟩ :: c₂) ∧
      ((∀ c ∈ e.children, c.tag ≠ lastmod_tag) →
        setLastmod lm e.children = e.children ++ [⟨lastmod_tag, lm⟩])) ∧
    ((∀ e ∈ u.entries, entryMatchesLoc (loc_value site slug) e = false) →
      update_sitemap (.ok u) site slug lm =
        ⟨u.entries ++ [newUrlEntry (loc_value site slug) lm]⟩) := by
  constructor
  · intro l₁ e l₂ hdec hmiss hmatch
    have hsplit : updateFirstMatch (loc_value site slug) lm u.entries =
        some (l₁ ++ ⟨setLastmod lm e.children⟩ :: l₂) := by
      rw [hdec]
      exact updateFirstMatch_split _ _ l₁ l₂ e hmiss hmatch
    refine ⟨?_, ?_, ?_⟩
    · rw [update_sitemap]
      show (match updateFirstMatch (loc_value site slug) lm u.entries with
        | some es => (⟨es⟩ : Urlset)
        | none => ⟨u.entries ++ [newUrlEntry (loc_value site slug) lm]⟩) = _
      rw [hsplit]
    · intro c₁ lmc c₂ hcdec hcmiss hctag
      rw [hcdec]
      exact setLastmod_split lm c₁ c₂ lmc hcmiss hctag
    · intro hnone
      exact setLastmod_append_of_none lm e.children hnone
  · intro hall
    have hnone : updateFirstMatch (loc_value site slug) lm u.entries = none :=
      updateFirstMatch_none_of_all _ _ _ hall
    rw [update_sitemap]
    show (match updateFirstMatch (loc_value site slug) lm u.entries with
      | some es => (⟨es⟩ : Urlset)
      | none => ⟨u.entries ++ [newUrlEntry (loc_value site slug) lm]⟩) = _
    rw [hnone]

/-- Concrete two-entry sitemap used by the C3 witness. -/
def witEntryA : UrlEntry :=
  ⟨[⟨loc_tag, "https://jainammehta.in/blog/a.html"⟩, ⟨lastmod_tag, "2020-01-01"⟩,
    ⟨priority_tag, "0.7"⟩]⟩

/-- Second concrete entry of the C3 witness. -/
def witEntryB : UrlEntry :=
  ⟨[⟨loc_tag, "https://jainammehta.in/blog/b.html"⟩, ⟨lastmod_tag, "2021-05-05"⟩,
    ⟨priority_tag, "0.7"⟩]⟩

/-- C3 witness: upserting entry A of a sitemap `[B, A]` touches only A's
lastmod and leaves B byte-identical. -/
theorem sitemap_upsert_frame_witness :
    update_sitemap (.ok ⟨[witEntryB, witEntryA]⟩) "https://jainammehta.in" "a" "2026-10-12" =
      ⟨[witEntryB, ⟨setLastmod "2026-10-12" witEntryA.children⟩]⟩ ∧
    setLastmod "2026-10-12" witEntryA.children =
      [⟨loc_tag, "https://jainammehta.in/blog/a.html"⟩] ++ ⟨lastmod_tag, "2026-10-12"⟩ ::
        [⟨priority_tag, "0.7"⟩] := by
  have h := (sitemap_upsert_frame "https://jainammehta.in" "a" "2026-10-12"
    ⟨[witEntryB, witEntryA]⟩).1 [witEntryB] witEntryA []
    (by decide) (by decide) (by decide)
  exact ⟨h.1, h.2.1 [⟨loc_tag, "https://jainammehta.in/blog/a.html"⟩]
    ⟨lastmod_tag, "2020-01-01"⟩ [⟨priority_tag, "0.7"⟩] (by decide) (by decide) (by decide)⟩

/-- C8: the `lastmod` date is the ISO 8601 calendar date of the current
instant shifted by the fixed +05:30 offset, and is independent of the
host timezone: the same instant yields the same string on any host. -/
theorem lastmod_fixed_offset :
    ∀ (tz1 tz2 : ℤ) (now_utc : ℕ),
      today_iso tz1 now_utc = spec_lastmod now_utc ∧
      today_iso tz1 now_utc = today_iso tz2 now_utc := by
  have key : ∀ (tz : ℤ) (t : ℕ),
      (addSeconds (utcnow tz t) (5 * 3600 + 30 * 60)).1 = (t + 19800) / 86400 := by
    intro tz t
    rw [utcnow, addSeconds]
    simp only
    rw [Nat.div_add_mod']
  intro tz1 tz2 t
  constructor
  · rw [today_iso, spec_lastmod, key]
  · rw [today_iso, today_iso, key, key]

/-- C9: topic selection is a deterministic function of the calendar date —
the ambient generator state is irrelevant because the seed is reset from
the date — and always yields one of the fixed bucket/angle combinations. -/
theorem topic_deterministic :
    ∀ ambient1 ambient2 date_ordinal : ℕ,
      pick_topic ambient1 date_ordinal = pick_topic ambient2 date_ordinal ∧
      ∃ b ∈ TOPIC_BUCKETS, ∃ a ∈ ANGLES,
        pick_topic ambient1 date_ordinal = b ++ ": " ++ a :=
  fun a1 _ d => ⟨rfl, pick_topic_combo a1 d⟩

/-- C10: every selectable topic is banned-keyword-free, so `blocked` is
always false on a selected topic and the fallback-substitution branch of
`main` never fires: the chosen topic is the picked topic. -/
theorem topic_never_blocked :
    ∀ ambient date_ordinal : ℕ,
      blocked (pick_topic ambient date_ordinal) = false ∧
      choose_topic ambient date_ordinal = pick_topic ambient date_ordinal := by
  intro amb d
  obtain ⟨b, hb, a, ha, heq⟩ := pick_topic_combo amb d
  have hbl : blocked (pick_topic amb d) = false := by
    rw [heq]
    exact combos_not_blocked b hb a ha
  refine ⟨hbl, ?_⟩
  rw [choose_topic]
  simp only [hbl, Bool.false_eq_true, if_false]

set_option maxRecDepth 100000 in
/-- C4 counterexample: the claim as stated fails when the title contains a
backslash: `re.sub` compiles the replacement template before scanning the
document, and `html.escape` preserves backslashes, so the bad escape in
the interpolated entry aborts the call with `re.error` instead of
inserting a list entry, even though the marker is present. -/
theorem index_prepend_bad_escape_cex :
    prepend_link_to_index "<ul id=\"posts\"></ul>".data "z" "a\\qb" "2026-10-12" =
      .error .badEscape := by decide

/-- C4 (amended): when the insertion-region marker matches
case-insensitively exactly at the head of `post` and at no earlier
position of the document `pre ++ post`, and the slug, the title and the
date are backslash-free, the prepend succeeds and inserts exactly one new
list entry (a link to `/blog/slug.html` with the escaped title and the
date) immediately after the matched marker text, keeping every byte of
`pre` and of the rest of `post` unchanged. -/
theorem index_prepend_frame (pre post : List Char) (slug title today : String)
    (hs : bslash ∉ slug.data) (ht : bslash ∉ title.data) (hd : bslash ∉ today.data)
    (hci : ciPref ulMarker post = true)
    (hmin : ∀ q < pre.length, ciPref ulMarker ((pre ++ post).drop q) = false) :
    prepend_link_to_index (pre ++ post) slug title today =
      .ok (pre ++ post.take ulMarker.length ++ linkHtml slug title today ++
        post.drop ulMarker.length) := by
  rw [prepend_link_to_index_ok (pre ++ post) slug title today
    (linkHtml_no_bslash slug title today hs ht hd)]
  rw [subAfterFirstCI_split ulMarker (linkHtml slug title today) (by decide) pre post hci hmin]

/-- C4 witness: prepending the entry `Z` to an index holding entries `X`
and `Y` yields the order `Z, X, Y` with every byte around the insertion
point unchanged. -/
theorem index_prepend_frame_witness :
    prepend_link_to_index
        ("<html>".data ++ "<ul id=\"posts\"><li>X</li><li>Y</li>".data)
        "z" "Z" "2026-10-12" =
      .ok ("<html>".data ++
        "<ul id=\"posts\"><li>X</li><li>Y</li>".data.take ulMarker.length ++
        linkHtml "z" "Z" "2026-10-12" ++
        "<ul id=\"posts\"><li>X</li><li>Y</li>".data.drop ulMarker.length) :=
  index_prepend_frame "<html>".data "<ul id=\"posts\"><li>X</li><li>Y</li>".data
    "z" "Z" "2026-10-12" (by decide) (by decide) (by decide) (by decide) (by decide)

/-- Environment of the C5 counterexample run. -/
def cexEnv5 : Env :=
  { site_url := "s", today_local := "2026-10-12", now_utc := 0, now_iso := "t",
    year := 0, host_tz := 0 }

/-- State of the C5 counterexample run: one existing post whose filename
stem contains a backslash group reference. -/
def cexSt5 : PubState :=
  { blogFiles := [("x\\1y", "")], indexDoc := "<p></p>".data,
    homeDoc := some "<!-- LATEST_POSTS_START --><!-- LATEST_POSTS_END -->".data,
    sitemap := .absent, memory := [] }

set_option maxRecDepth 100000 in
/-- C5 counterexample: with a post stem containing `\1` on disk, the
placeholder run aborts inside the homepage rebuild — the stem is
interpolated into the replacement of a group-free pattern, whose template
parse raises `re.error: invalid group reference` — so the run log is
never written: the claim that the run always completes is false. -/
theorem placeholder_run_aborts_cex :
    (mainRun cexEnv5 cexSt5 none).2 = some ReError.invalidGroupRef ∧
    (mainRun cexEnv5 cexSt5 none).1.memory = [] := by
  constructor
  · decide
  · decide

set_option maxHeartbeats 1000000 in
/-- C5 (amended): when the site URL, the UTC timestamp, and the date are
backslash-free and every non-index post on disk has a backslash-free stem
and extracted title, a run whose generation failed still publishes: a
fresh placeholder post is prepended to the listing, the index, the
sitemap, the homepage and the run log all update, the merge sequence is
the same one the success branch runs, and no error escapes. -/
theorem placeholder_run_publishes (env : Env) (st : PubState)
    (hsu : bslash ∉ env.site_url.data) (hni : bslash ∉ env.now_iso.data)
    (htl : bslash ∉ env.today_local.data)
    (hbf : ∀ p ∈ st.blogFiles, p.1 ≠ "index" →
      bslash ∉ p.1.data ∧ bslash ∉ (extractTitle p.1 p.2.data).data) :
    ∃ home1,
      phSlug st ∉ dirStems st ∧
      mainRun env st none =
        ({ blogFiles := (phSlug st, phPage env st) :: st.blogFiles
           indexDoc := subAfterFirstCI ulMarker
             (linkHtml (phSlug st) phTitle env.today_local) st.indexDoc
           sitemap := .ok (update_sitemap st.sitemap env.site_url (phSlug st)
             (today_iso env.host_tz env.now_utc))
           homeDoc := home1
           memory := memAppend st.memory env.today_local (phSlug st) }, none) ∧
      rebuild_home_latest st.homeDoc
        (("index", (⟨subAfterFirstCI ulMarker
            (linkHtml (phSlug st) phTitle env.today_local) st.indexDoc⟩ : String)) ::
          (phSlug st, phPage env st) :: st.blogFiles) 5 = .ok home1 ∧
      memLookup (memAppend st.memory env.today_local (phSlug st)) env.today_local =
        memLookup st.memory env.today_local ++ [phSlug st] ∧
      mainRun env st none = publishSeq env st (phSlug st) phTitle (phPage env st) ∧
      (∀ data : ArticleDraft, mainRun env st (some data) =
        publishSeq env st
          (ensure_unique_slug (if data.slug = "" then slugify data.title else data.slug)
            (dirStems st))
          data.title
          (render_page env.site_url
            (ensure_unique_slug (if data.slug = "" then slugify data.title else data.slug)
              (dirStems st))
            data.title data.description data.tags data.html_body env.year)) := by
  have hslugbs : bslash ∉ (phSlug st).data :=
    ensure_unique_slug_no_bslash "publishing-temporarily-unavailable" (dirStems st) (by decide)
  have hlk : bslash ∉ linkHtml (phSlug st) phTitle env.today_local :=
    linkHtml_no_bslash (phSlug st) phTitle env.today_local hslugbs (by decide) htl
  have hpre := prepend_link_to_index_ok st.indexDoc (phSlug st) phTitle env.today_local hlk
  have hpg : bslash ∉ (phPage env st).data :=
    render_page_no_bslash env.site_url (phSlug st) phTitle
      "Automated publishing is temporarily unavailable." (placeholder_body env.now_iso)
      env.year hsu hslugbs (by decide) (by decide)
      (placeholder_body_no_bslash env.now_iso hni)
  set index1 := subAfterFirstCI ulMarker
    (linkHtml (phSlug st) phTitle env.today_local) st.indexDoc with hidx
  set bf1 := (("index", (⟨index1⟩ : String)) :: (phSlug st, phPage env st) :: st.blogFiles)
    with hbf1
  have hmem : ∀ p ∈ bf1, p.1 ≠ "index" →
      bslash ∉ p.1.data ∧ bslash ∉ (extractTitle p.1 p.2.data).data := by
    intro p hp hne
    rw [hbf1] at hp
    rcases List.mem_cons.mp hp with rfl | hp
    · exact absurd rfl hne
    · rcases List.mem_cons.mp hp with rfl | hp
      · refine ⟨hslugbs, fun hm => ?_⟩
        rcases mem_extractTitle (phSlug st) (phPage env st).data bslash hm with hm | hm
        · exact hslugbs hm
        · exact hpg hm
      · exact hbf p hp hne
  have hli : bslash ∉ liHtml (collectPosts 5 bf1 0) := liHtml_collect_no_bslash 5 bf1 hmem
  obtain ⟨home1, hreb⟩ : ∃ home1, rebuild_home_latest st.homeDoc bf1 5 = .ok home1 := by
    cases hh : st.homeDoc with
    | none => exact ⟨none, rfl⟩
    | some h0 =>
      exact ⟨some (sub_region_pure (liHtml (collectPosts 5 bf1 0)) h0),
        rebuild_home_latest_ok h0 bf1 5 hli⟩
  refine ⟨home1,
    ensure_unique_slug_not_mem "publishing-temporarily-unavailable" (dirStems st),
    ?_, hreb, memLookup_memAppend st.memory env.today_local (phSlug st), rfl,
    fun data => rfl⟩
  have hms : mainRun env st none = publishSeq env st (phSlug st) phTitle (phPage env st) := rfl
  rw [hms]
  exact publishSeq_ok env st (phSlug st) phTitle (phPage env st) index1 home1 hpre hreb

/-- Environment of the C5 witness run. -/
def wEnv5 : Env :=
  { site_url := "https://jainammehta.in", today_local := "2026-10-12", now_utc := 0,
    now_iso := "2026-10-12T00:00:00", year := 2026, host_tz := 0 }

/-- State of the C5 witness run: marker present, no posts yet. -/
def wSt5 : PubState :=
  { blogFiles := [], indexDoc := "<ul id=\"posts\"></ul>".data, homeDoc := none,
    sitemap := .absent, memory := [] }

/-- C5 witness: the placeholder run on a fresh blog publishes the
placeholder post and updates every artifact. -/
theorem placeholder_run_publishes_witness :
    ∃ home1,
      phSlug wSt5 ∉ dirStems wSt5 ∧
      mainRun wEnv5 wSt5 none =
        ({ blogFiles := (phSlug wSt5, phPage wEnv5 wSt5) :: wSt5.blogFiles
           indexDoc := subAfterFirstCI ulMarker
             (linkHtml (phSlug wSt5) phTitle wEnv5.today_local) wSt5.indexDoc
           sitemap := .ok (update_sitemap wSt5.sitemap wEnv5.site_url (phSlug wSt5)
             (today_iso wEnv5.host_tz wEnv5.now_utc))
           homeDoc := home1
           memory := memAppend wSt5.memory wEnv5.today_local (phSlug wSt5) }, none) ∧
      rebuild_home_latest wSt5.homeDoc
        (("index", (⟨subAfterFirstCI ulMarker
            (linkHtml (phSlug wSt5) phTitle wEnv5.today_local) wSt5.indexDoc⟩ : String)) ::
          (phSlug wSt5, phPage wEnv5 wSt5) :: wSt5.blogFiles) 5 = .ok home1 ∧
      memLookup (memAppend wSt5.memory wEnv5.today_local (phSlug wSt5)) wEnv5.today_local =
        memLookup wSt5.memory wEnv5.today_local ++ [phSlug wSt5] ∧
      mainRun wEnv5 wSt5 none = publishSeq wEnv5 wSt5 (phSlug wSt5) phTitle (phPage wEnv5 wSt5) ∧
      (∀ data : ArticleDraft, mainRun wEnv5 wSt5 (some data) =
        publishSeq wEnv5 wSt5
          (ensure_unique_slug (if data.slug = "" then slugify data.title else data.slug)
            (dirStems wSt5))
          data.title
          (render_page wEnv5.site_url
            (ensure_unique_slug (if data.slug = "" then slugify data.title else data.slug)
              (dirStems wSt5))
            data.title data.description data.tags data.html_body wEnv5.year)) :=
  placeholder_run_publishes wEnv5 wSt5 (by decide) (by decide) (by decide)
    (fun p hp => absurd hp (List.not_mem_nil p))

/-- Post listing whose stem embeds the literal end marker (C6). -/
def cexFiles : List (String × String) := [("x<!-- LATEST_POSTS_END -->y", "")]

/-- Homepage holding an empty latest-posts region (C6). -/
def cexHome : List Char :=
  "<!-- LATEST_POSTS_START --><!-- LATEST_POSTS_END -->".data

/-- Output of the first rebuild on the C6 counterexample. -/
def cexOnce : List Char := sub_region_pure (liHtml (collectPosts 5 cexFiles 0)) cexHome

/-- Output of the second rebuild on the C6 counterexample. -/
def cexTwice : List Char := sub_region_pure (liHtml (collectPosts 5 cexFiles 0)) cexOnce

set_option maxRecDepth 100000 in
set_option maxHeartbeats 1000000 in
/-- C6 counterexample: a filename stem containing the literal end marker
is interpolated raw into the generated list, so the second rebuild finds
the end marker inside the first rebuild output and cuts the replaced
region short: running the rebuild twice differs from running it once. -/
theorem homepage_rebuild_not_idem_cex :
    rebuild_home_latest (some cexHome) cexFiles 5 = .ok (some cexOnce) ∧
    rebuild_home_latest (some cexOnce) cexFiles 5 = .ok (some cexTwice) ∧
    cexOnce ≠ cexTwice := by
  refine ⟨rfl, rfl, by decide⟩

/-- C6 (amended): the homepage rebuild is idempotent on every homepage and
every fixed post listing whose non-index stems are free of the substring
`<!` and of backslashes and whose extracted titles are free of
backslashes: the rebuild succeeds, and its output is a fixed point of the
rebuild. -/
theorem homepage_rebuild_idem (home : List Char) (bf : List (String × String)) (m : ℕ)
    (h : ∀ p ∈ bf, p.1 ≠ "index" →
      containsSub ['<', '!'] p.1.data = false ∧ bslash ∉ p.1.data ∧
        bslash ∉ (extractTitle p.1 p.2.data).data) :
    ∃ out, rebuild_home_latest (some home) bf m = .ok (some out) ∧
      rebuild_home_latest (some out) bf m = .ok (some out) := by
  have hbs : bslash ∉ liHtml (collectPosts m bf 0) :=
    liHtml_collect_no_bslash m bf (fun p hp hne => ⟨(h p hp hne).2.1, (h p hp hne).2.2⟩)
  have hlb : containsSub ['<', '!'] (liHtml (collectPosts m bf 0)) = false :=
    ltBang_collect m bf (fun p hp hne => (h p hp hne).1)
  refine ⟨sub_region_pure (liHtml (collectPosts m bf 0)) home,
    rebuild_home_latest_ok home bf m hbs, ?_⟩
  rw [rebuild_home_latest_ok (sub_region_pure (liHtml (collectPosts m bf 0)) home) bf m hbs,
    sub_region_pure_idem (liHtml (collectPosts m bf 0)) home hlb]

/-- C6 witness: a one-post listing with a clean stem; the rebuild output
is a fixed point of the rebuild. -/
theorem homepage_rebuild_idem_witness :
    ∃ out, rebuild_home_latest
        (some "<a><!-- LATEST_POSTS_START -->o<!-- LATEST_POSTS_END --><b>".data)
        [("alpha", "")] 5 = .ok (some out) ∧
      rebuild_home_latest (some out) [("alpha", "")] 5 = .ok (some out) :=
  homepage_rebuild_idem "<a><!-- LATEST_POSTS_START -->o<!-- LATEST_POSTS_END --><b>".data
    [("alpha", "")] 5 (by decide)

set_option maxRecDepth 100000 in
/-- C7 counterexample: with the index marker absent the merge step is not
a harmless no-op for every input: a backslash in the title makes the
template compilation fail before any scan, so the call raises `re.error`
instead of leaving the document unchanged. -/
theorem missing_markers_crash_cex :
    prepend_link_to_index "<p>x</p>".data "s" "a\\qb" "2026-10-12" =
      .error .badEscape := by decide

/-- C7 (amended): a missing marker skips exactly that merge step: with the
index marker absent and a backslash-free slug, title and date the index
is returned unchanged without error; with the homepage marker pair not
both present the homepage is returned unchanged unconditionally (the
marker check precedes the substitution); a run whose index lacks the
marker still updates the post file, sitemap, homepage and run log; and a
run whose homepage lacks the markers still updates the post file, index,
sitemap and run log, leaving the homepage bytes unchanged. -/
theorem missing_markers_skip :
    (∀ (doc : List Char) (slug title today : String),
      bslash ∉ slug.data → bslash ∉ title.data → bslash ∉ today.data →
      containsSubCI ulMarker doc = false →
      prepend_link_to_index doc slug title today = .ok doc) ∧
    (∀ li home, (containsSub startMarker home && containsSub endMarker home) = false →
      sub_latest_region li home = .ok home) ∧
    (∀ (env : Env) (st : PubState) (slug title page : String)
        (hd1 : Option (List Char)),
      bslash ∉ slug.data → bslash ∉ title.data → bslash ∉ env.today_local.data →
      containsSubCI ulMarker st.indexDoc = false →
      rebuild_home_latest st.homeDoc
        (("index", (⟨st.indexDoc⟩ : String)) :: (slug, page) :: st.blogFiles) 5 = .ok hd1 →
      publishSeq env st slug title page =
        ({ blogFiles := (slug, page) :: st.blogFiles
           indexDoc := st.indexDoc
           sitemap := .ok (update_sitemap st.sitemap env.site_url slug
             (today_iso env.host_tz env.now_utc))
           homeDoc := hd1
           memory := memAppend st.memory env.today_local slug }, none)) ∧
    (∀ (env : Env) (st : PubState) (slug title page : String)
        (home index1 : List Char),
      st.homeDoc = some home →
      prepend_link_to_index st.indexDoc slug title env.today_local = .ok index1 →
      (containsSub startMarker home && containsSub endMarker home) = false →
      publishSeq env st slug title page =
        ({ blogFiles := (slug, page) :: st.blogFiles
           indexDoc := index1
           sitemap := .ok (update_sitemap st.sitemap env.site_url slug
             (today_iso env.host_tz env.now_utc))
           homeDoc := some home
           memory := memAppend st.memory env.today_local slug }, none)) := by
  have hskip : ∀ li home,
      (containsSub startMarker home && containsSub endMarker home) = false →
      sub_latest_region li home = .ok home := by
    intro li home hmk
    rw [sub_latest_region, if_neg (ne_true_of_eq_false hmk)]
  refine ⟨?_, hskip, ?_, ?_⟩
  · intro doc slug title today hs ht hd hnm
    rw [prepend_link_to_index_ok doc slug title today
      (linkHtml_no_bslash slug title today hs ht hd),
      subAfterFirstCI_no_match ulMarker (linkHtml slug title today) doc hnm]
  · intro env st slug title page hd1 hs ht htd hnm hreb
    have hpre : prepend_link_to_index st.indexDoc slug title env.today_local =
        .ok st.indexDoc := by
      rw [prepend_link_to_index_ok st.indexDoc slug title env.today_local
        (linkHtml_no_bslash slug title env.today_local hs ht htd),
        subAfterFirstCI_no_match ulMarker (linkHtml slug title env.today_local)
          st.indexDoc hnm]
    exact publishSeq_ok env st slug title page st.indexDoc hd1 hpre hreb
  · intro env st slug title page home index1 hhome hpre hmk
    have hreb : rebuild_home_latest st.homeDoc
        (("index", (⟨index1⟩ : String)) :: (slug, page) :: st.blogFiles) 5 =
        .ok (some home) := by
      rw [hhome]
      show (match sub_latest_region (liHtml (collectPosts 5
          (("index", (⟨index1⟩ : String)) :: (slug, page) :: st.blogFiles) 0)) home with
        | Except.error e => (Except.error e : Except ReError (Option (List Char)))
        | Except.ok h2 => Except.ok (some h2)) = Except.ok (some home)
      rw [hskip (liHtml (collectPosts 5
        (("index", (⟨index1⟩ : String)) :: (slug, page) :: st.blogFiles) 0)) home hmk]
    exact publishSeq_ok env st slug title page index1 (some home) hpre hreb

/-- Environment of the C7 witness runs. -/
def wEnv7 : Env :=
  { site_url := "https://jainammehta.in", today_local := "2026-10-12", now_utc := 0,
    now_iso := "2026-10-12T00:00:00", year := 2026, host_tz := 0 }

/-- Run state whose index lacks the list marker (C7 witness). -/
def wSt7a : PubState :=
  { blogFiles := [], indexDoc := "<p>no marker</p>".data, homeDoc := none,
    sitemap := .absent, memory := [] }

/-- Run state whose homepage lacks the latest-posts markers (C7 witness). -/
def wSt7b : PubState :=
  { blogFiles := [], indexDoc := "<ul id=\"posts\"></ul>".data,
    homeDoc := some "<main>no markers</main>".data, sitemap := .absent, memory := [] }

/-- C7 witness: the four skip behaviours at concrete inputs. -/
theorem missing_markers_skip_witness :
    prepend_link_to_index "<p>no marker</p>".data "z" "T" "2026-10-12" =
      .ok "<p>no marker</p>".data ∧
    sub_latest_region "li".data "<main>no markers</main>".data =
      .ok "<main>no markers</main>".data ∧
    publishSeq wEnv7 wSt7a "z" "T" "page" =
      ({ blogFiles := ("z", "page") :: wSt7a.blogFiles
         indexDoc := wSt7a.indexDoc
         sitemap := .ok (update_sitemap wSt7a.sitemap wEnv7.site_url "z"
           (today_iso wEnv7.host_tz wEnv7.now_utc))
         homeDoc := none
         memory := memAppend wSt7a.memory wEnv7.today_local "z" }, none) ∧
    publishSeq wEnv7 wSt7b "z" "T" "page" =
      ({ blogFiles := ("z", "page") :: wSt7b.blogFiles
         indexDoc := subAfterFirstCI ulMarker (linkHtml "z" "T" "2026-10-12")
           "<ul id=\"posts\"></ul>".data
         sitemap := .ok (update_sitemap wSt7b.sitemap wEnv7.site_url "z"
           (today_iso wEnv7.host_tz wEnv7.now_utc))
         homeDoc := some "<main>no markers</main>".data
         memory := memAppend wSt7b.memory wEnv7.today_local "z" }, none) :=
  ⟨missing_markers_skip.1 "<p>no marker</p>".data "z" "T" "2026-10-12"
     (by decide) (by decide) (by decide) (by decide),
   missing_markers_skip.2.1 "li".data "<main>no markers</main>".data (by decide),
   missing_markers_skip.2.2.1 wEnv7 wSt7a "z" "T" "page" none
     (by decide) (by decide) (by decide) (by decide) rfl,
   missing_markers_skip.2.2.2 wEnv7 wSt7b "z" "T" "page" "<main>no markers</main>".data
     (subAfterFirstCI ulMarker (linkHtml "z" "T" "2026-10-12") "<ul id=\"posts\"></ul>".data)
     rfl
     (prepend_link_to_index_ok "<ul id=\"posts\"></ul>".data "z" "T" "2026-10-12" (by decide))
     (by decide)⟩
